import Mathlib

/-! Quarter Forth runtime (`runtime.c`): embedding and verification.

The C runtime keeps one flat byte buffer and two `size_t` stack pointers and
offers a fixed catalogue of primitives over them.  This development embeds
the runtime functionally:

* the buffer `uint8_t* memory` is a total map from byte offsets to bytes; the
  allocated region is the offsets below `MEMORY_SIZE`.  The C code performs
  no check before dereferencing `memory + off`, and neither does the
  embedding: an access at any offset reads or writes the map.  Statements
  that depend on an access lying inside the region say so;
* `size_t` values are naturals below `2^64`, every `size_t` operation of the
  source is reduced modulo `2^64`;
* `int64_t` cells are integers in `[-2^63, 2^63)`; `int64_t` arithmetic is
  two's-complement, i.e. computed modulo `2^64` (`wrap64`);
* a cell is stored as 8 bytes, least significant byte first;
* `exit(1)` after a message is an `Except.error` carrying the kind of fault;
* by-reference parameters (`size_t* sp`) become returned values.
-/

namespace Quarter

/-! ## Layout constants (runtime.c, lines 15-19) -/

def MEMORY_SIZE : Nat := 8 * 1024 * 1024
def STACK_BASE : Nat := 0x000000
def STACK_SIZE : Nat := 0x010000
def RSTACK_BASE : Nat := 0x010000
def RSTACK_SIZE : Nat := 0x010000

/-- Number of values of a `size_t` / of a 64-bit cell. -/
def WORD : Nat := 2 ^ 64

/-! ## Machine integers -/

/-- Reinterpretation of a 64-bit pattern as `int64_t`. -/
def toInt64 (u : Nat) : Int :=
  if u < 2 ^ 63 then (u : Int) else (u : Int) - 2 ^ 64

/-- Bit pattern of an integer seen as `int64_t` (conversion to `uint64_t`). -/
def toU64 (v : Int) : Nat := (v % 2 ^ 64).toNat

/-- Result of an `int64_t` computation whose mathematical value is `v`. -/
def wrap64 (v : Int) : Int := toInt64 (toU64 v)

/-- Predicate: `v` is a value of type `int64_t`. -/
def isCell (v : Int) : Prop := -2 ^ 63 ≤ v ∧ v < 2 ^ 63

instance (v : Int) : Decidable (isCell v) := by unfold isCell; infer_instance

/-! ## Memory -/

abbrev Byte := Fin 256

/-- The buffer behind `uint8_t* memory`, indexed by byte offset. -/
abbrev Memory := Nat → Byte

/-- The buffer returned by `calloc`: all bytes zero. -/
def zeroMemory : Memory := fun _ => 0

/-- Embedding of `memory[off]` read as `uint8_t`. -/
def read_byte (memory : Memory) (off : Nat) : Nat := (memory off).val

/-- Embedding of `memory[off] = b` with `b` converted to `uint8_t`. -/
def write_byte (memory : Memory) (off : Nat) (b : Nat) : Memory :=
  fun a => if a = off then Fin.ofNat b else memory a

/-- The 64-bit pattern held in the 8 bytes starting at `off`. -/
def read_u64 (memory : Memory) (off : Nat) : Nat :=
  read_byte memory off + 256 * (read_byte memory (off + 1) + 256 * (read_byte memory (off + 2)
    + 256 * (read_byte memory (off + 3) + 256 * (read_byte memory (off + 4)
    + 256 * (read_byte memory (off + 5) + 256 * (read_byte memory (off + 6)
    + 256 * read_byte memory (off + 7)))))))

/-- Embedding of `*(int64_t*)(memory + off)` as an rvalue. -/
def read_cell (memory : Memory) (off : Nat) : Int := toInt64 (read_u64 memory off)

/-- Embedding of `*(int64_t*)(memory + off) = value`. -/
def write_cell (memory : Memory) (off : Nat) (value : Int) : Memory :=
  fun a => if off ≤ a ∧ a < off + 8 then Fin.ofNat (toU64 value / 256 ^ (a - off) % 256)
    else memory a

/-! ## Faults and stack helpers (runtime.c, lines 63-83) -/

/-- The fatal conditions of the runtime, one per `exit(1)` message. -/
inductive Fault where
  | allocFailed
  | stackUnderflow
  | divisionByZero
  | outOfBounds (addr : Int)
  deriving DecidableEq, Repr

/-- Embedding of `push_cell`: returns the memory and pointer after the call. -/
def push_cell (memory : Memory) (sp : Nat) (value : Int) : Memory × Nat :=
  (write_cell memory sp value, (sp + 8) % WORD)

/-- Embedding of `pop_cell`: returns the cell and the pointer after the call. -/
def pop_cell (memory : Memory) (sp : Nat) : Except Fault (Int × Nat) :=
  if sp ≤ STACK_BASE then .error .stackUnderflow
  else
    let sp1 := (sp + WORD - 8) % WORD
    .ok (read_cell memory sp1, sp1)

/-- Embedding of `peek_cell`: the pointer is read but not written. -/
def peek_cell (memory : Memory) (sp : Nat) (offset : Nat) : Except Fault Int :=
  if sp ≤ (STACK_BASE + offset * 8) % WORD then .error .stackUnderflow
  else .ok (read_cell memory ((sp + 2 * WORD - 8 - (offset * 8) % WORD) % WORD))

/-! ## Runtime state -/

/-- The state the primitives work on: the buffer, the two stack pointers
(`g_sp`, `g_rp`) and the bytes written to standard output so far. -/
structure Machine where
  memory : Memory
  sp : Nat
  rp : Nat
  out : List Nat

/-- Embedding of `quarter_runtime_init`; `calloc_ok` tells whether `calloc`
returned a buffer. -/
def quarter_runtime_init (calloc_ok : Bool) : Except Fault Machine :=
  if calloc_ok then
    .ok { memory := zeroMemory, sp := STACK_BASE, rp := RSTACK_BASE, out := [] }
  else .error .allocFailed

/-- Bytes of a string of ASCII characters. -/
def asciiBytes (t : String) : List Nat := t.toList.map Char.toNat

/-! ## I/O primitives (runtime.c, lines 93-149) -/

/-- Embedding of `quarter_dot`: `printf("%lld ", value)`. -/
def quarter_dot (s : Machine) : Except Fault Machine := do
  let (value, sp1) ← pop_cell s.memory s.sp
  pure { s with sp := sp1, out := s.out ++ asciiBytes (toString value) ++ [32] }

/-- Embedding of `quarter_u_dot`: `printf("%llu ", (uint64_t)value)`. -/
def quarter_u_dot (s : Machine) : Except Fault Machine := do
  let (value, sp1) ← pop_cell s.memory s.sp
  pure { s with sp := sp1, out := s.out ++ asciiBytes (toString (toU64 value)) ++ [32] }

/-- Embedding of `quarter_emit`: `putchar((int)value)` writes the low byte. -/
def quarter_emit (s : Machine) : Except Fault Machine := do
  let (value, sp1) ← pop_cell s.memory s.sp
  pure { s with sp := sp1, out := s.out ++ [toU64 value % 256] }

/-- Embedding of `quarter_key`; `c` is the `int` returned by `getchar()`. -/
def quarter_key (c : Int) (s : Machine) : Except Fault Machine :=
  let (memory, sp1) := push_cell s.memory s.sp c
  pure { s with memory := memory, sp := sp1 }

/-- Embedding of `quarter_cr`: `putchar(10)`. -/
def quarter_cr (s : Machine) : Except Fault Machine :=
  pure { s with out := s.out ++ [10] }

/-- Embedding of `quarter_space`: `putchar(32)`. -/
def quarter_space (s : Machine) : Except Fault Machine :=
  pure { s with out := s.out ++ [32] }

/-! ## Stack primitives (runtime.c, lines 159-208) -/

def quarter_dup (s : Machine) : Except Fault Machine := do
  let value ← peek_cell s.memory s.sp 0
  let (memory, sp1) := push_cell s.memory s.sp value
  pure { s with memory := memory, sp := sp1 }

def quarter_drop (s : Machine) : Except Fault Machine := do
  let (_, sp1) ← pop_cell s.memory s.sp
  pure { s with sp := sp1 }

def quarter_swap (s : Machine) : Except Fault Machine := do
  let (b, sp1) ← pop_cell s.memory s.sp
  let (a, sp2) ← pop_cell s.memory sp1
  let (memory1, sp3) := push_cell s.memory sp2 b
  let (memory2, sp4) := push_cell memory1 sp3 a
  pure { s with memory := memory2, sp := sp4 }

def quarter_over (s : Machine) : Except Fault Machine := do
  let a ← peek_cell s.memory s.sp 1
  let (memory, sp1) := push_cell s.memory s.sp a
  pure { s with memory := memory, sp := sp1 }

def quarter_rot (s : Machine) : Except Fault Machine := do
  let (c, sp1) ← pop_cell s.memory s.sp
  let (b, sp2) ← pop_cell s.memory sp1
  let (a, sp3) ← pop_cell s.memory sp2
  let (memory1, sp4) := push_cell s.memory sp3 b
  let (memory2, sp5) := push_cell memory1 sp4 c
  let (memory3, sp6) := push_cell memory2 sp5 a
  pure { s with memory := memory3, sp := sp6 }

/-! ## Arithmetic primitives (runtime.c, lines 218-270) -/

def quarter_add (s : Machine) : Except Fault Machine := do
  let (b, sp1) ← pop_cell s.memory s.sp
  let (a, sp2) ← pop_cell s.memory sp1
  let (memory, sp3) := push_cell s.memory sp2 (wrap64 (a + b))
  pure { s with memory := memory, sp := sp3 }

def quarter_sub (s : Machine) : Except Fault Machine := do
  let (b, sp1) ← pop_cell s.memory s.sp
  let (a, sp2) ← pop_cell s.memory sp1
  let (memory, sp3) := push_cell s.memory sp2 (wrap64 (a - b))
  pure { s with memory := memory, sp := sp3 }

def quarter_mul (s : Machine) : Except Fault Machine := do
  let (b, sp1) ← pop_cell s.memory s.sp
  let (a, sp2) ← pop_cell s.memory sp1
  let (memory, sp3) := push_cell s.memory sp2 (wrap64 (a * b))
  pure { s with memory := memory, sp := sp3 }

/-- Embedding of `quarter_div`; C's `/` on integers truncates toward zero
(`Int.tdiv`), the result is an `int64_t`. -/
def quarter_div (s : Machine) : Except Fault Machine := do
  let (b, sp1) ← pop_cell s.memory s.sp
  let (a, sp2) ← pop_cell s.memory sp1
  if b = 0 then throw Fault.divisionByZero
  let (memory, sp3) := push_cell s.memory sp2 (wrap64 (Int.tdiv a b))
  pure { s with memory := memory, sp := sp3 }

def quarter_negate (s : Machine) : Except Fault Machine := do
  let (value, sp1) ← pop_cell s.memory s.sp
  let (memory, sp2) := push_cell s.memory sp1 (wrap64 (-value))
  pure { s with memory := memory, sp := sp2 }

/-! ## Comparison primitives (runtime.c, lines 280-307) -/

def quarter_less_than (s : Machine) : Except Fault Machine := do
  let (b, sp1) ← pop_cell s.memory s.sp
  let (a, sp2) ← pop_cell s.memory sp1
  let (memory, sp3) := push_cell s.memory sp2 (if a < b then -1 else 0)
  pure { s with memory := memory, sp := sp3 }

def quarter_gt (s : Machine) : Except Fault Machine := do
  let (b, sp1) ← pop_cell s.memory s.sp
  let (a, sp2) ← pop_cell s.memory sp1
  let (memory, sp3) := push_cell s.memory sp2 (if a > b then -1 else 0)
  pure { s with memory := memory, sp := sp3 }

def quarter_equal (s : Machine) : Except Fault Machine := do
  let (b, sp1) ← pop_cell s.memory s.sp
  let (a, sp2) ← pop_cell s.memory sp1
  let (memory, sp3) := push_cell s.memory sp2 (if a = b then -1 else 0)
  pure { s with memory := memory, sp := sp3 }

/-! ## Memory primitives (runtime.c, lines 317-370) -/

def quarter_fetch (s : Machine) : Except Fault Machine := do
  let (addr, sp1) ← pop_cell s.memory s.sp
  if addr < 0 ∨ addr ≥ (MEMORY_SIZE : Int) - 8 then throw (Fault.outOfBounds addr)
  let value := read_cell s.memory addr.toNat
  let (memory, sp2) := push_cell s.memory sp1 value
  pure { s with memory := memory, sp := sp2 }

def quarter_store (s : Machine) : Except Fault Machine := do
  let (addr, sp1) ← pop_cell s.memory s.sp
  let (value, sp2) ← pop_cell s.memory sp1
  if addr < 0 ∨ addr ≥ (MEMORY_SIZE : Int) - 8 then throw (Fault.outOfBounds addr)
  pure { s with memory := write_cell s.memory addr.toNat value, sp := sp2 }

def quarter_c_fetch (s : Machine) : Except Fault Machine := do
  let (addr, sp1) ← pop_cell s.memory s.sp
  if addr < 0 ∨ addr ≥ (MEMORY_SIZE : Int) then throw (Fault.outOfBounds addr)
  let (memory, sp2) := push_cell s.memory sp1 (read_byte s.memory addr.toNat : Nat)
  pure { s with memory := memory, sp := sp2 }

def quarter_c_store (s : Machine) : Except Fault Machine := do
  let (addr, sp1) ← pop_cell s.memory s.sp
  let (value, sp2) ← pop_cell s.memory sp1
  if addr < 0 ∨ addr ≥ (MEMORY_SIZE : Int) then throw (Fault.outOfBounds addr)
  pure { s with memory := write_byte s.memory addr.toNat (toU64 value % 256), sp := sp2 }

/-! ## Driving the runtime -/

/-- The 23 primitives of the catalogue; `key` carries the character read. -/
inductive Prim where
  | dot | u_dot | emit | key (c : Int) | cr | space
  | dup | drop | swap | over | rot
  | add | sub | mul | div | negate
  | less_than | gt | equal
  | fetch | store | c_fetch | c_store
  deriving DecidableEq, Repr

/-- One call of a primitive by the generated code. -/
def call : Prim → Machine → Except Fault Machine
  | .dot => quarter_dot
  | .u_dot => quarter_u_dot
  | .emit => quarter_emit
  | .key c => quarter_key c
  | .cr => quarter_cr
  | .space => quarter_space
  | .dup => quarter_dup
  | .drop => quarter_drop
  | .swap => quarter_swap
  | .over => quarter_over
  | .rot => quarter_rot
  | .add => quarter_add
  | .sub => quarter_sub
  | .mul => quarter_mul
  | .div => quarter_div
  | .negate => quarter_negate
  | .less_than => quarter_less_than
  | .gt => quarter_gt
  | .equal => quarter_equal
  | .fetch => quarter_fetch
  | .store => quarter_store
  | .c_fetch => quarter_c_fetch
  | .c_store => quarter_c_store

/-- A finite sequence of primitive calls, stopping at the first fault. -/
def run : List Prim → Machine → Except Fault Machine
  | [], s => .ok s
  | p :: ps, s =>
    match call p s with
    | .ok s1 => run ps s1
    | .error e => .error e

/-- A push or a pop issued on one stack through the helpers. -/
inductive StackOp where
  | push (value : Int)
  | pop
  deriving DecidableEq, Repr

/-- One helper call on the stack whose pointer is `st.2`. -/
def stackStep (op : StackOp) (st : Memory × Nat) : Except Fault (Memory × Nat) :=
  match op with
  | .push value => .ok (push_cell st.1 st.2 value)
  | .pop =>
    match pop_cell st.1 st.2 with
    | .ok (_, sp1) => .ok (st.1, sp1)
    | .error e => .error e

/-- A finite sequence of helper calls, stopping at the first fault. -/
def runOps : List StackOp → Memory × Nat → Except Fault (Memory × Nat)
  | [], st => .ok st
  | op :: ops, st =>
    match stackStep op st with
    | .ok st1 => runOps ops st1
    | .error e => .error e

def countPush (ops : List StackOp) : Nat := (ops.filter (fun o => o != StackOp.pop)).length

def countPop (ops : List StackOp) : Nat := (ops.filter (fun o => o == StackOp.pop)).length

/-- The state reached from a fresh runtime after the generated code has pushed
the given cells, first to last, on the data stack. -/
def stackOf (cells : List Int) : Machine :=
  cells.foldl
    (fun s v => { s with memory := (push_cell s.memory s.sp v).1, sp := (push_cell s.memory s.sp v).2 })
    { memory := zeroMemory, sp := STACK_BASE, rp := RSTACK_BASE, out := [] }

/-- Number of cells a primitive leaves on the data stack minus the number it
takes, read off the `Stack: ( before -- after )` comments of runtime.c. -/
def effect : Prim → Int
  | .dot => -1
  | .u_dot => -1
  | .emit => -1
  | .key _ => 1
  | .cr => 0
  | .space => 0
  | .dup => 1
  | .drop => -1
  | .swap => 0
  | .over => 1
  | .rot => 0
  | .add => -1
  | .sub => -1
  | .mul => -1
  | .div => -1
  | .negate => 0
  | .less_than => -1
  | .gt => -1
  | .equal => -1
  | .fetch => 0
  | .store => -2
  | .c_fetch => 0
  | .c_store => -2

/-- Net number of cells a sequence of calls adds to the data stack. -/
def netEffect (ps : List Prim) : Int := (ps.map effect).sum

/-- A literal pushed by the generated code: one `push_cell` on the data stack. -/
def push (value : Int) (s : Machine) : Machine :=
  { s with memory := (push_cell s.memory s.sp value).1, sp := (push_cell s.memory s.sp value).2 }

/-- The stack-shuffling, arithmetic and comparison primitives. -/
def isStackPrim : Prim → Bool
  | .dup | .drop | .swap | .over | .rot => true
  | .add | .sub | .mul | .div | .negate => true
  | .less_than | .gt | .equal => true
  | _ => false

/-- Number of operands a primitive takes from the data stack, read off the
`Stack: ( before -- after )` comments of runtime.c. -/
def operands : Prim → Nat
  | .dot => 1
  | .u_dot => 1
  | .emit => 1
  | .key _ => 0
  | .cr => 0
  | .space => 0
  | .dup => 1
  | .drop => 1
  | .swap => 2
  | .over => 2
  | .rot => 3
  | .add => 2
  | .sub => 2
  | .mul => 2
  | .div => 2
  | .negate => 1
  | .less_than => 2
  | .gt => 2
  | .equal => 2
  | .fetch => 1
  | .store => 2
  | .c_fetch => 1
  | .c_store => 2

/-- Whether every push of the sequence, run from `st`, stores inside the buffer:
`pointer + 8 ≤ MEMORY_SIZE` at each push. -/
def pushesInBuffer : List StackOp → Memory × Nat → Bool
  | [], _ => true
  | op :: ops, st =>
    (match op with
      | .push _ => decide (st.2 + 8 ≤ MEMORY_SIZE)
      | .pop => true) &&
    (match stackStep op st with
      | .ok st1 => pushesInBuffer ops st1
      | .error _ => true)

/-- Whether every call of the run, started in `s`, leaves the data-stack pointer
inside the buffer. A push at pointer `p` leaves the pointer at `p + 8`, and the
last push of a call is its highest, so this says that every push of the run
stores inside the buffer (`p + 8 ≤ MEMORY_SIZE`). -/
def runInBuffer : List Prim → Machine → Bool
  | [], _ => true
  | p :: ps, s =>
    match call p s with
    | .ok s1 => decide (s1.sp ≤ MEMORY_SIZE) && runInBuffer ps s1
    | .error _ => true

/-! ## Basic facts about the encoding of cells -/

theorem read_u64_lt (m : Memory) (off : Nat) : read_u64 m off < 2 ^ 64 := by
  unfold read_u64 read_byte
  have h0 := (m off).isLt
  have h1 := (m (off + 1)).isLt
  have h2 := (m (off + 2)).isLt
  have h3 := (m (off + 3)).isLt
  have h4 := (m (off + 4)).isLt
  have h5 := (m (off + 5)).isLt
  have h6 := (m (off + 6)).isLt
  have h7 := (m (off + 7)).isLt
  omega

theorem read_u64_write_cell (m : Memory) (off : Nat) (v : Int) :
    read_u64 (write_cell m off v) off = toU64 v := by
  have hv : toU64 v < 2 ^ 64 := by
    unfold toU64
    omega
  unfold read_u64 read_byte write_cell
  simp only [Fin.ofNat]
  generalize toU64 v = u at hv ⊢
  simp
  omega

theorem toU64_lt (v : Int) : toU64 v < 2 ^ 64 := by
  unfold toU64
  omega

theorem toInt64_toU64 (v : Int) (h : isCell v) : toInt64 (toU64 v) = v := by
  unfold isCell at h
  unfold toInt64 toU64
  split <;> omega

theorem isCell_toInt64 (u : Nat) (h : u < 2 ^ 64) : isCell (toInt64 u) := by
  unfold isCell toInt64
  split <;> omega

theorem toU64_toInt64 (u : Nat) (h : u < 2 ^ 64) : toU64 (toInt64 u) = u := by
  unfold toU64 toInt64
  split <;> omega

theorem isCell_read_cell (m : Memory) (off : Nat) : isCell (read_cell m off) :=
  isCell_toInt64 _ (read_u64_lt m off)

theorem isCell_wrap64 (v : Int) : isCell (wrap64 v) :=
  isCell_toInt64 _ (toU64_lt v)

theorem wrap64_of_isCell (v : Int) (h : isCell v) : wrap64 v = v :=
  toInt64_toU64 v h

theorem wrap64_congr (v : Int) : (2 ^ 64 : Int) ∣ (wrap64 v - v) := by
  unfold wrap64 toInt64 toU64
  split <;> omega

theorem read_cell_write_cell (m : Memory) (off : Nat) (v : Int) :
    read_cell (write_cell m off v) off = wrap64 v := by
  unfold read_cell wrap64
  rw [read_u64_write_cell]

theorem write_cell_outside (m : Memory) (off : Nat) (v : Int) (a : Nat)
    (h : a < off ∨ off + 8 ≤ a) : write_cell m off v a = m a := by
  unfold write_cell
  rw [if_neg]
  omega

theorem read_u64_write_cell_disjoint (m : Memory) (off off1 : Nat) (v : Int)
    (h : off1 + 8 ≤ off ∨ off + 8 ≤ off1) :
    read_u64 (write_cell m off v) off1 = read_u64 m off1 := by
  unfold read_u64 read_byte
  rw [write_cell_outside m off v off1 (by omega), write_cell_outside m off v (off1 + 1) (by omega),
    write_cell_outside m off v (off1 + 2) (by omega), write_cell_outside m off v (off1 + 3) (by omega),
    write_cell_outside m off v (off1 + 4) (by omega), write_cell_outside m off v (off1 + 5) (by omega),
    write_cell_outside m off v (off1 + 6) (by omega), write_cell_outside m off v (off1 + 7) (by omega)]

theorem read_cell_write_cell_disjoint (m : Memory) (off off1 : Nat) (v : Int)
    (h : off1 + 8 ≤ off ∨ off + 8 ≤ off1) :
    read_cell (write_cell m off v) off1 = read_cell m off1 := by
  unfold read_cell
  rw [read_u64_write_cell_disjoint m off off1 v h]

theorem pop_cell_ok (m : Memory) (sp : Nat) (h8 : 8 ≤ sp) (hw : sp < 2 ^ 64) :
    pop_cell m sp = .ok (read_cell m (sp - 8), sp - 8) := by
  have e : (sp + WORD - 8) % WORD = sp - 8 := by
    unfold WORD
    omega
  unfold pop_cell
  rw [if_neg (by unfold STACK_BASE; omega)]
  simp only [e]

theorem pop_cell_underflow (m : Memory) : pop_cell m 0 = .error .stackUnderflow := by
  unfold pop_cell STACK_BASE
  simp

/-! ## C1: `pop_cell` -/

/-- C1 (as amended): `pop_cell` compares the pointer it is given with `STACK_BASE = 0`,
whichever stack the pointer belongs to. It faults with a stack underflow exactly
when the pointer is at or below `STACK_BASE`; otherwise the pointer becomes
`p - 8` modulo `2^64` (exactly `p - 8` for `p ≥ 8`) and the cell stored at the new
offset is returned. `pop_cell` performs no store, so the embedding returns no
memory; `quarter_drop`, which is exactly one pop, leaves the whole buffer and
the return-stack pointer as they were. -/
theorem pop_cell_spec (memory : Memory) (p : Nat) (hp : p < 2 ^ 64) :
    (pop_cell memory p = .error .stackUnderflow ↔ p ≤ STACK_BASE) ∧
    (STACK_BASE < p →
      pop_cell memory p
        = .ok (read_cell memory ((p + 2 ^ 64 - 8) % 2 ^ 64), (p + 2 ^ 64 - 8) % 2 ^ 64)) ∧
    (8 ≤ p → pop_cell memory p = .ok (read_cell memory (p - 8), p - 8)) ∧
    (∀ s s1 : Machine, s.memory = memory → s.sp = p → quarter_drop s = .ok s1 →
      s1.memory = memory ∧ s1.sp = (p + 2 ^ 64 - 8) % 2 ^ 64 ∧ s1.rp = s.rp) := by
  refine ⟨?_, ?_, ?_, ?_⟩
  · unfold pop_cell
    by_cases h : p ≤ STACK_BASE
    · simp [h]
    · simp [h]
  · intro h
    unfold pop_cell WORD
    rw [if_neg (by omega)]
  · intro h
    exact pop_cell_ok memory p h hp
  · intro s s1 hm hs hd
    unfold quarter_drop pop_cell WORD at hd
    by_cases h : s.sp ≤ STACK_BASE
    · simp [h, bind, Except.bind] at hd
    · simp [h, bind, Except.bind, pure, Except.pure] at hd
      subst hd
      simp [hm, hs]

/-- C1, witness: popping the one cell of a data stack at pointer 8. -/
theorem pop_cell_spec_witness :
    (pop_cell zeroMemory 8 = .error .stackUnderflow ↔ 8 ≤ STACK_BASE) ∧
    (STACK_BASE < 8 →
      pop_cell zeroMemory 8
        = .ok (read_cell zeroMemory ((8 + 2 ^ 64 - 8) % 2 ^ 64), (8 + 2 ^ 64 - 8) % 2 ^ 64)) ∧
    (8 ≤ 8 → pop_cell zeroMemory 8 = .ok (read_cell zeroMemory (8 - 8), 8 - 8)) ∧
    (∀ s s1 : Machine, s.memory = zeroMemory → s.sp = 8 → quarter_drop s = .ok s1 →
      s1.memory = zeroMemory ∧ s1.sp = (8 + 2 ^ 64 - 8) % 2 ^ 64 ∧ s1.rp = s.rp) :=
  pop_cell_spec zeroMemory 8 (by decide)

/-- C1, counterexample: with the return-stack pointer at its own base
`RSTACK_BASE = 0x010000` (an empty return stack), `pop_cell` does not fault: it
moves the pointer to `0xFFF8`, inside the data-stack area, and returns the cell
stored there. -/
theorem pop_cell_return_stack_at_base :
    RSTACK_BASE ≤ RSTACK_BASE ∧
    pop_cell zeroMemory RSTACK_BASE = .ok (0, 0xFFF8) ∧
    pop_cell zeroMemory RSTACK_BASE ≠ .error .stackUnderflow := by
  refine ⟨le_refl _, rfl, ?_⟩
  intro h
  have e : pop_cell zeroMemory RSTACK_BASE = .ok (0, 0xFFF8) := rfl
  rw [e] at h
  cases h

/-! ## C2: push then pop -/

/-- C2: for every 64-bit cell `x`, every memory content and every pointer `p` with
`p + 8` inside the memory region, `push(x)` followed by `pop()` does not fault,
the pop returns exactly `x`, and the pointer after the pop is `p` again. -/
theorem push_pop_roundtrip (memory : Memory) (p : Nat) (x : Int) (hx : isCell x)
    (hp : p + 8 ≤ MEMORY_SIZE) :
    pop_cell (push_cell memory p x).1 (push_cell memory p x).2 = .ok (x, p) := by
  unfold MEMORY_SIZE at hp
  have e : (p + 8) % WORD = p + 8 := by
    unfold WORD
    omega
  unfold push_cell
  simp only [e]
  rw [pop_cell_ok _ _ (by omega) (by omega)]
  simp only [Nat.add_sub_cancel]
  rw [read_cell_write_cell, wrap64_of_isCell x hx]

/-- C2, witness: the most negative cell pushed at the last cell of the data stack area. -/
theorem push_pop_roundtrip_witness :
    pop_cell (push_cell zeroMemory 0xFFF8 (-2 ^ 63)).1 (push_cell zeroMemory 0xFFF8 (-2 ^ 63)).2
      = .ok (-2 ^ 63, 0xFFF8) :=
  push_pop_roundtrip zeroMemory 0xFFF8 (-2 ^ 63) (by decide) (by decide)

/-! ## C3: sequences of pushes and pops -/

theorem countPush_cons_push (v : Int) (ops : List StackOp) :
    countPush (StackOp.push v :: ops) = countPush ops + 1 := by
  simp [countPush, List.filter_cons]

theorem countPush_cons_pop (ops : List StackOp) :
    countPush (StackOp.pop :: ops) = countPush ops := by
  simp [countPush, List.filter_cons]

theorem countPop_cons_push (v : Int) (ops : List StackOp) :
    countPop (StackOp.push v :: ops) = countPop ops := by
  simp [countPop, List.filter_cons]

theorem countPop_cons_pop (ops : List StackOp) :
    countPop (StackOp.pop :: ops) = countPop ops + 1 := by
  simp [countPop, List.filter_cons]

/-- Pointer arithmetic along a sequence that starts at an aligned pointer inside
the buffer and whose pushes all store inside the buffer. -/
theorem runOps_pointer_aux (ops : List StackOp) :
    ∀ (m : Memory) (sp : Nat) (st : Memory × Nat), sp % 8 = 0 → sp ≤ MEMORY_SIZE →
      pushesInBuffer ops (m, sp) = true → runOps ops (m, sp) = .ok st →
      st.2 + 8 * countPop ops = sp + 8 * countPush ops ∧ st.2 % 8 = 0 ∧
      st.2 ≤ MEMORY_SIZE := by
  induction ops with
  | nil =>
    intro m sp st ha hb _ h
    simp only [runOps, Except.ok.injEq] at h
    subst h
    simp [countPush, countPop, ha, hb]
  | cons op ops ih =>
    intro m sp st ha hb hin h
    have hm : MEMORY_SIZE = 8388608 := by decide
    cases op with
    | push v =>
      unfold pushesInBuffer at hin
      simp only [stackStep, Bool.and_eq_true, decide_eq_true_eq] at hin
      obtain ⟨hin1, hin2⟩ := hin
      have e : (sp + 8) % WORD = sp + 8 := by
        unfold WORD
        omega
      simp only [push_cell, e] at hin2
      simp only [runOps, stackStep, push_cell, e] at h
      have := ih _ _ st (by omega) hin1 hin2 h
      rw [countPush_cons_push, countPop_cons_push]
      omega
    | pop =>
      by_cases hz : sp = 0
      · subst hz
        simp [runOps, stackStep, pop_cell_underflow] at h
      · have h8 : 8 ≤ sp := by omega
        unfold pushesInBuffer at hin
        simp only [stackStep, pop_cell_ok m sp h8 (by omega), Bool.and_eq_true, true_and] at hin
        simp only [runOps, stackStep, pop_cell_ok m sp h8 (by omega)] at h
        have := ih _ _ st (by omega) (by omega) hin h
        rw [countPush_cons_pop, countPop_cons_pop]
        omega

/-- C3: starting from an empty data stack, for every finite sequence of pushes and
pops in which no pop faults (and every push stores inside the 8 MiB buffer,
`pointer + 8 ≤ MEMORY_SIZE`, whatever the number of operations), the pushes
are at least as many as the pops, the pointer after the sequence is
`STACK_BASE + 8 * (pushes - pops)`, and a pop issued next faults (with a stack
underflow) exactly when the pushes before it are as many as the pops before it. -/
theorem runOps_pointer (ops : List StackOp) (memory : Memory) (st : Memory × Nat)
    (hin : pushesInBuffer ops (memory, STACK_BASE) = true)
    (h : runOps ops (memory, STACK_BASE) = .ok st) :
    countPop ops ≤ countPush ops ∧
    st.2 = STACK_BASE + 8 * (countPush ops - countPop ops) ∧
    (stackStep StackOp.pop st = .error .stackUnderflow ↔ countPush ops = countPop ops) := by
  have hk := runOps_pointer_aux ops memory STACK_BASE st (by decide) (by decide) hin h
  have hm : MEMORY_SIZE = 8388608 := by decide
  unfold STACK_BASE at hk ⊢
  refine ⟨by omega, by omega, ?_⟩
  by_cases hz : st.2 = 0
  · simp only [stackStep, hz, pop_cell_underflow, true_iff]
    omega
  · have h8 : 8 ≤ st.2 := by omega
    simp only [stackStep, pop_cell_ok st.1 st.2 h8 (by omega)]
    constructor
    · intro hc
      cases hc
    · intro hc
      omega

/-- C3, witness: push, push, pop leaves one cell. -/
theorem runOps_pointer_witness :
    countPop [StackOp.push 5, StackOp.push 6, StackOp.pop]
      ≤ countPush [StackOp.push 5, StackOp.push 6, StackOp.pop] ∧
    (push_cell zeroMemory 0 5).2 = STACK_BASE + 8 * (countPush [StackOp.push 5, StackOp.push 6, StackOp.pop]
      - countPop [StackOp.push 5, StackOp.push 6, StackOp.pop]) ∧
    (stackStep StackOp.pop ((push_cell (push_cell zeroMemory 0 5).1 8 6).1, (push_cell zeroMemory 0 5).2)
        = .error .stackUnderflow ↔
      countPush [StackOp.push 5, StackOp.push 6, StackOp.pop]
        = countPop [StackOp.push 5, StackOp.push 6, StackOp.pop]) :=
  runOps_pointer [StackOp.push 5, StackOp.push 6, StackOp.pop] zeroMemory
    ((push_cell (push_cell zeroMemory 0 5).1 8 6).1, (push_cell zeroMemory 0 5).2)
    rfl rfl

/-! ## C4: `peek_cell` -/

/-- C4 (as amended): for a data stack holding `k` cells (pointer `STACK_BASE + 8k`)
and every offset `n < 2^61`, `peek(n)` faults with a stack underflow exactly when
`k < n + 1`; otherwise it returns the cell `n` positions below the top, stored at
`pointer - 8 - 8n`, and `peek(0)` returns the value `pop` would return.
`peek_cell` assigns neither `*sp` nor any byte, so its embedding returns the
cell only. -/
theorem peek_cell_spec (memory : Memory) (k n : Nat) (hk : k < 2 ^ 61) (hn : n < 2 ^ 61) :
    (peek_cell memory (STACK_BASE + 8 * k) n = .error .stackUnderflow ↔ k < n + 1) ∧
    (n + 1 ≤ k →
      peek_cell memory (STACK_BASE + 8 * k) n
        = .ok (read_cell memory (STACK_BASE + 8 * k - 8 - 8 * n))) ∧
    (1 ≤ k → ∀ v, peek_cell memory (STACK_BASE + 8 * k) 0 = .ok v →
      pop_cell memory (STACK_BASE + 8 * k) = .ok (v, STACK_BASE + 8 * k - 8)) := by
  have e1 : (STACK_BASE + n * 8) % WORD = 8 * n := by
    unfold STACK_BASE WORD
    omega
  have e2 : (n * 8) % WORD = 8 * n := by
    unfold WORD
    omega
  refine ⟨?_, ?_, ?_⟩
  · unfold peek_cell
    rw [e1]
    unfold STACK_BASE
    by_cases h : k < n + 1
    · rw [if_pos (by omega)]
      simp [h]
    · rw [if_neg (by omega)]
      simp [h]
  · intro h
    have e3 : (STACK_BASE + 8 * k + 2 * WORD - 8 - 8 * n) % WORD
        = STACK_BASE + 8 * k - 8 - 8 * n := by
      unfold STACK_BASE WORD
      omega
    unfold peek_cell
    rw [e1, e2, e3, if_neg (by unfold STACK_BASE; omega)]
  · intro h v hv
    have e3 : (STACK_BASE + 8 * k + 2 * WORD - 8 - (0 * 8) % WORD) % WORD
        = STACK_BASE + 8 * k - 8 := by
      unfold STACK_BASE WORD
      omega
    have hc : ¬ (STACK_BASE + 8 * k ≤ (STACK_BASE + 0 * 8) % WORD) := by
      unfold STACK_BASE WORD
      omega
    unfold peek_cell at hv
    rw [if_neg hc, e3] at hv
    simp only [Except.ok.injEq] at hv
    rw [pop_cell_ok memory (STACK_BASE + 8 * k) (by unfold STACK_BASE; omega)
      (by unfold STACK_BASE; omega), hv]

/-- C4, witness: the second cell of a two-cell stack. -/
theorem peek_cell_spec_witness :
    (peek_cell (stackOf [5, 6]).memory (STACK_BASE + 8 * 2) 1 = .error .stackUnderflow ↔ 2 < 1 + 1) ∧
    (1 + 1 ≤ 2 →
      peek_cell (stackOf [5, 6]).memory (STACK_BASE + 8 * 2) 1
        = .ok (read_cell (stackOf [5, 6]).memory (STACK_BASE + 8 * 2 - 8 - 8 * 1))) ∧
    (1 ≤ 2 → ∀ v, peek_cell (stackOf [5, 6]).memory (STACK_BASE + 8 * 2) 0 = .ok v →
      pop_cell (stackOf [5, 6]).memory (STACK_BASE + 8 * 2) = .ok (v, STACK_BASE + 8 * 2 - 8)) :=
  peek_cell_spec (stackOf [5, 6]).memory 2 1 (by decide) (by decide)

/-- C4, counterexample: on a stack holding the single cell 7 (`k = 1`), `peek`
with offset `n = 2^61` does not fault although `k < n + 1`: `offset * 8` is
`2^64`, which is 0 as a `size_t`, so the test and the address are those of
offset 0 and the top cell is returned. -/
theorem peek_cell_offset_overflow :
    (stackOf [7]).sp = STACK_BASE + 8 * 1 ∧ 1 < 2 ^ 61 + 1 ∧
    peek_cell (stackOf [7]).memory (stackOf [7]).sp (2 ^ 61) = .ok 7 := by
  refine ⟨rfl, by decide, ?_⟩
  have hc : ¬ ((stackOf [7]).sp ≤ (STACK_BASE + 2 ^ 61 * 8) % WORD) := by decide
  have hv : read_cell (stackOf [7]).memory
      (((stackOf [7]).sp + 2 * WORD - 8 - (2 ^ 61 * 8) % WORD) % WORD) = 7 := by decide
  unfold peek_cell
  rw [if_neg hc, hv]

/-! ## C5: the data-stack pointer along runs of primitives -/

theorem pop_bind (m : Memory) (sp : Nat) (f : Int × Nat → Except Fault Machine) (r : Machine)
    (ha : sp % 8 = 0) (hw : sp < 2 ^ 64) (h : (pop_cell m sp >>= f) = .ok r) :
    8 ≤ sp ∧ f (read_cell m (sp - 8), sp - 8) = .ok r := by
  by_cases hz : sp = 0
  · subst hz
    rw [pop_cell_underflow] at h
    cases h
  · have h8 : 8 ≤ sp := by omega
    rw [pop_cell_ok m sp h8 hw] at h
    exact ⟨h8, h⟩

theorem peek_bind (m : Memory) (sp n : Nat) (f : Int → Except Fault Machine) (r : Machine)
    (h : (peek_cell m sp n >>= f) = .ok r) :
    ∃ v, f v = .ok r := by
  cases hp : peek_cell m sp n with
  | error e =>
    rw [hp] at h
    cases h
  | ok v =>
    rw [hp] at h
    exact ⟨v, h⟩

theorem call_sp (p : Prim) (s s1 : Machine) (ha : s.sp % 8 = 0) (hw : s.sp < 2 ^ 64)
    (h : call p s = .ok s1) :
    0 ≤ (s.sp : Int) + 8 * effect p ∧
    (s1.sp : Int) = ((s.sp : Int) + 8 * effect p) % 2 ^ 64 := by
  cases p
  case dot | u_dot | emit | drop =>
    simp only [call] at h
    first
      | unfold quarter_dot at h
      | unfold quarter_u_dot at h
      | unfold quarter_emit at h
      | unfold quarter_drop at h
    obtain ⟨g1, h⟩ := pop_bind _ _ _ _ ha hw h
    simp only [pure, Except.pure, Except.ok.injEq] at h
    subst h
    simp only [effect]
    omega
  case key c =>
    simp only [call] at h
    unfold quarter_key at h
    simp only [push_cell, pure, Except.pure, Except.ok.injEq] at h
    subst h
    simp only [effect, WORD]
    omega
  case cr | space =>
    simp only [call] at h
    first
      | unfold quarter_cr at h
      | unfold quarter_space at h
    simp only [pure, Except.pure, Except.ok.injEq] at h
    subst h
    simp only [effect]
    omega
  case dup | over =>
    simp only [call] at h
    first
      | unfold quarter_dup at h
      | unfold quarter_over at h
    obtain ⟨v, h⟩ := peek_bind _ _ _ _ _ h
    simp only [push_cell, pure, Except.pure, Except.ok.injEq] at h
    subst h
    simp only [effect, WORD]
    omega
  case swap | add | sub | mul | less_than | gt | equal =>
    simp only [call] at h
    first
      | unfold quarter_swap at h
      | unfold quarter_add at h
      | unfold quarter_sub at h
      | unfold quarter_mul at h
      | unfold quarter_less_than at h
      | unfold quarter_gt at h
      | unfold quarter_equal at h
    obtain ⟨g1, h⟩ := pop_bind _ _ _ _ ha hw h
    obtain ⟨g2, h⟩ := pop_bind _ _ _ _ (by omega) (by omega) h
    simp only [push_cell, pure, Except.pure, Except.ok.injEq] at h
    subst h
    simp only [effect, WORD]
    omega
  case rot =>
    simp only [call] at h
    unfold quarter_rot at h
    obtain ⟨g1, h⟩ := pop_bind _ _ _ _ ha hw h
    obtain ⟨g2, h⟩ := pop_bind _ _ _ _ (by omega) (by omega) h
    obtain ⟨g3, h⟩ := pop_bind _ _ _ _ (by omega) (by omega) h
    simp only [push_cell, pure, Except.pure, Except.ok.injEq] at h
    subst h
    simp only [effect, WORD]
    omega
  case negate =>
    simp only [call] at h
    unfold quarter_negate at h
    obtain ⟨g1, h⟩ := pop_bind _ _ _ _ ha hw h
    simp only [push_cell, pure, Except.pure, Except.ok.injEq] at h
    subst h
    simp only [effect, WORD]
    omega
  case div | store | c_store =>
    simp only [call] at h
    first
      | unfold quarter_div at h
      | unfold quarter_store at h
      | unfold quarter_c_store at h
    obtain ⟨g1, h⟩ := pop_bind _ _ _ _ ha hw h
    obtain ⟨g2, h⟩ := pop_bind _ _ _ _ (by omega) (by omega) h
    dsimp only at h
    split_ifs at h
    · cases h
    · simp only [push_cell, pure, Except.pure, bind, Except.bind, Except.ok.injEq] at h
      subst h
      simp only [effect, WORD]
      omega
  case fetch | c_fetch =>
    simp only [call] at h
    first
      | unfold quarter_fetch at h
      | unfold quarter_c_fetch at h
    obtain ⟨g1, h⟩ := pop_bind _ _ _ _ ha hw h
    dsimp only at h
    split_ifs at h
    · cases h
    · simp only [push_cell, pure, Except.pure, bind, Except.bind, Except.ok.injEq] at h
      subst h
      simp only [effect, WORD]
      omega

theorem effect_bounds (p : Prim) : -2 ≤ effect p ∧ effect p ≤ 1 := by
  cases p <;> simp [effect]

theorem run_sp_aligned (ps : List Prim) :
    ∀ s s1 : Machine, s.sp % 8 = 0 → s.sp < 2 ^ 64 → run ps s = .ok s1 →
      s1.sp % 8 = 0 ∧ s1.sp < 2 ^ 64 := by
  induction ps with
  | nil =>
    intro s s1 ha hw h
    simp only [run, Except.ok.injEq] at h
    subst h
    exact ⟨ha, hw⟩
  | cons p ps ih =>
    intro s s1 ha hw h
    unfold run at h
    cases hc : call p s with
    | error e =>
      rw [hc] at h
      cases h
    | ok s2 =>
      rw [hc] at h
      have hb := effect_bounds p
      have hs := call_sp p s s2 ha hw hc
      exact ih s2 s1 (by omega) (by omega) h

/-- Along a run whose calls all leave the pointer inside the buffer, the pointer
is the start pointer plus 8 times the net stack effect, with no reduction. -/
theorem run_sp_inside (ps : List Prim) :
    ∀ s s1 : Machine, s.sp % 8 = 0 → s.sp ≤ MEMORY_SIZE → runInBuffer ps s = true →
      run ps s = .ok s1 →
      (s1.sp : Int) = s.sp + 8 * netEffect ps ∧ s1.sp ≤ MEMORY_SIZE ∧ s1.sp % 8 = 0 := by
  induction ps with
  | nil =>
    intro s s1 ha hb _ h
    simp only [run, Except.ok.injEq] at h
    subst h
    simp [netEffect, ha, hb]
  | cons p ps ih =>
    intro s s1 ha hb hin h
    have hm : MEMORY_SIZE = 8388608 := by decide
    unfold run at h
    unfold runInBuffer at hin
    cases hc : call p s with
    | error e =>
      rw [hc] at h
      cases h
    | ok s2 =>
      rw [hc] at h
      rw [hc] at hin
      simp only [Bool.and_eq_true, decide_eq_true_eq] at hin
      obtain ⟨hin1, hin2⟩ := hin
      have hbd := effect_bounds p
      have hs := call_sp p s s2 ha (by omega) hc
      have := ih s2 s1 (by omega) hin1 hin2 h
      have e : netEffect (p :: ps) = effect p + netEffect ps := by
        simp [netEffect]
      rw [e]
      omega

/-- C5: in every state reachable from the state produced by `init` by a finite
sequence of non-faulting primitive calls (any of the 23 primitives, any
character for `key`, any number of calls) whose pushes store inside the 8 MiB
buffer, the data-stack pointer is `STACK_BASE + 8k` where `k`, a natural number,
is the net number of cells the calls pushed: it is never below `STACK_BASE`, is
a multiple of 8 above it and has not wrapped around; and no primitive that
succeeds from such a state decrements the pointer below its base: the new
pointer is exactly the old one plus 8 times the stack effect, and that sum is
at least `STACK_BASE`. -/
theorem sp_invariant (ps : List Prim) (s0 s : Machine)
    (h0 : quarter_runtime_init true = .ok s0) (h : run ps s0 = .ok s)
    (hin : runInBuffer ps s0 = true) :
    (∃ k : Nat, s.sp = STACK_BASE + 8 * k ∧ (k : Int) = netEffect ps) ∧
    s.sp ≤ MEMORY_SIZE ∧
    (∀ p s1, call p s = .ok s1 →
      (STACK_BASE : Int) ≤ (s.sp : Int) + 8 * effect p ∧
      (s1.sp : Int) = (s.sp : Int) + 8 * effect p) := by
  simp only [quarter_runtime_init, if_true, Except.ok.injEq] at h0
  have hsp0 : s0.sp = 0 := by rw [← h0]; rfl
  have hm : MEMORY_SIZE = 8388608 := by decide
  have hinv := run_sp_inside ps s0 s (by omega) (by omega) hin h
  unfold STACK_BASE
  refine ⟨⟨s.sp / 8, by omega, by omega⟩, hinv.2.1, ?_⟩
  intro p s1 hc
  have hbd := effect_bounds p
  have := call_sp p s s1 hinv.2.2 (by omega) hc
  exact ⟨by omega, by omega⟩

/-- C5, witness: the state after `key` has pushed the character 65. -/
theorem sp_invariant_witness :
    (∃ k : Nat, (stackOf [65]).sp = STACK_BASE + 8 * k ∧ (k : Int) = netEffect [Prim.key 65]) ∧
    (stackOf [65]).sp ≤ MEMORY_SIZE ∧
    (∀ p s1, call p (stackOf [65]) = .ok s1 →
      (STACK_BASE : Int) ≤ ((stackOf [65]).sp : Int) + 8 * effect p ∧
      (s1.sp : Int) = ((stackOf [65]).sp : Int) + 8 * effect p) :=
  sp_invariant [Prim.key 65] (stackOf []) (stackOf [65]) rfl rfl rfl

/-! ## What the primitives compute when their operands are present -/

theorem sp_after_pop2_push (sp : Nat) (h16 : 16 ≤ sp) (hw : sp < 2 ^ 64) :
    (sp - 8 - 8 + 8) % WORD = sp - 8 ∧ sp - 8 - 8 = sp - 16 := by
  unfold WORD
  omega

theorem binop_ok (f : Int → Int → Int) (s : Machine) (h16 : 16 ≤ s.sp) (hw : s.sp < 2 ^ 64) :
    (do
      let (b, sp1) ← pop_cell s.memory s.sp
      let (a, sp2) ← pop_cell s.memory sp1
      let (memory, sp3) := push_cell s.memory sp2 (f a b)
      pure { s with memory := memory, sp := sp3 } : Except Fault Machine)
    = .ok { s with
        memory := write_cell s.memory (s.sp - 16)
          (f (read_cell s.memory (s.sp - 16)) (read_cell s.memory (s.sp - 8))),
        sp := s.sp - 8 } := by
  rw [pop_cell_ok s.memory s.sp (by omega) hw]
  dsimp only [bind, Except.bind]
  rw [pop_cell_ok s.memory (s.sp - 8) (by omega) (by omega)]
  dsimp only [push_cell, pure, Except.pure]
  rw [(sp_after_pop2_push s.sp h16 hw).1, (sp_after_pop2_push s.sp h16 hw).2]

theorem quarter_add_ok (s : Machine) (h16 : 16 ≤ s.sp) (hw : s.sp < 2 ^ 64) :
    quarter_add s = .ok { s with
      memory := write_cell s.memory (s.sp - 16)
        (wrap64 (read_cell s.memory (s.sp - 16) + read_cell s.memory (s.sp - 8))),
      sp := s.sp - 8 } :=
  binop_ok (fun a b => wrap64 (a + b)) s h16 hw

theorem quarter_sub_ok (s : Machine) (h16 : 16 ≤ s.sp) (hw : s.sp < 2 ^ 64) :
    quarter_sub s = .ok { s with
      memory := write_cell s.memory (s.sp - 16)
        (wrap64 (read_cell s.memory (s.sp - 16) - read_cell s.memory (s.sp - 8))),
      sp := s.sp - 8 } :=
  binop_ok (fun a b => wrap64 (a - b)) s h16 hw

theorem quarter_mul_ok (s : Machine) (h16 : 16 ≤ s.sp) (hw : s.sp < 2 ^ 64) :
    quarter_mul s = .ok { s with
      memory := write_cell s.memory (s.sp - 16)
        (wrap64 (read_cell s.memory (s.sp - 16) * read_cell s.memory (s.sp - 8))),
      sp := s.sp - 8 } :=
  binop_ok (fun a b => wrap64 (a * b)) s h16 hw

theorem quarter_less_than_ok (s : Machine) (h16 : 16 ≤ s.sp) (hw : s.sp < 2 ^ 64) :
    quarter_less_than s = .ok { s with
      memory := write_cell s.memory (s.sp - 16)
        (if read_cell s.memory (s.sp - 16) < read_cell s.memory (s.sp - 8) then -1 else 0),
      sp := s.sp - 8 } :=
  binop_ok (fun a b => if a < b then -1 else 0) s h16 hw

theorem quarter_gt_ok (s : Machine) (h16 : 16 ≤ s.sp) (hw : s.sp < 2 ^ 64) :
    quarter_gt s = .ok { s with
      memory := write_cell s.memory (s.sp - 16)
        (if read_cell s.memory (s.sp - 16) > read_cell s.memory (s.sp - 8) then -1 else 0),
      sp := s.sp - 8 } :=
  binop_ok (fun a b => if a > b then -1 else 0) s h16 hw

theorem quarter_equal_ok (s : Machine) (h16 : 16 ≤ s.sp) (hw : s.sp < 2 ^ 64) :
    quarter_equal s = .ok { s with
      memory := write_cell s.memory (s.sp - 16)
        (if read_cell s.memory (s.sp - 16) = read_cell s.memory (s.sp - 8) then -1 else 0),
      sp := s.sp - 8 } :=
  binop_ok (fun a b => if a = b then -1 else 0) s h16 hw

theorem quarter_div_ok (s : Machine) (h16 : 16 ≤ s.sp) (hw : s.sp < 2 ^ 64)
    (hb : read_cell s.memory (s.sp - 8) ≠ 0) :
    quarter_div s = .ok { s with
      memory := write_cell s.memory (s.sp - 16)
        (wrap64 (Int.tdiv (read_cell s.memory (s.sp - 16)) (read_cell s.memory (s.sp - 8)))),
      sp := s.sp - 8 } := by
  unfold quarter_div
  rw [pop_cell_ok s.memory s.sp (by omega) hw]
  dsimp only [bind, Except.bind]
  rw [pop_cell_ok s.memory (s.sp - 8) (by omega) (by omega)]
  dsimp only
  rw [if_neg hb]
  dsimp only [push_cell, pure, Except.pure]
  rw [(sp_after_pop2_push s.sp h16 hw).1, (sp_after_pop2_push s.sp h16 hw).2]

theorem quarter_div_zero (s : Machine) (h16 : 16 ≤ s.sp) (hw : s.sp < 2 ^ 64)
    (hb : read_cell s.memory (s.sp - 8) = 0) :
    quarter_div s = .error .divisionByZero := by
  unfold quarter_div
  rw [pop_cell_ok s.memory s.sp (by omega) hw]
  dsimp only [bind, Except.bind]
  rw [pop_cell_ok s.memory (s.sp - 8) (by omega) (by omega)]
  dsimp only
  rw [if_pos hb]

theorem quarter_negate_ok (s : Machine) (h8 : 8 ≤ s.sp) (hw : s.sp < 2 ^ 64) :
    quarter_negate s = .ok { s with
      memory := write_cell s.memory (s.sp - 8) (wrap64 (-read_cell s.memory (s.sp - 8))),
      sp := s.sp } := by
  have e : (s.sp - 8 + 8) % WORD = s.sp := by
    unfold WORD
    omega
  unfold quarter_negate
  rw [pop_cell_ok s.memory s.sp h8 hw]
  dsimp only [bind, Except.bind, push_cell, pure, Except.pure]
  rw [e]

theorem quarter_fetch_ok (s : Machine) (h8 : 8 ≤ s.sp) (hw : s.sp < 2 ^ 64)
    (hb : ¬ (read_cell s.memory (s.sp - 8) < 0
      ∨ read_cell s.memory (s.sp - 8) ≥ (MEMORY_SIZE : Int) - 8)) :
    quarter_fetch s = .ok { s with
      memory := write_cell s.memory (s.sp - 8)
        (read_cell s.memory (read_cell s.memory (s.sp - 8)).toNat),
      sp := s.sp } := by
  have e : (s.sp - 8 + 8) % WORD = s.sp := by
    unfold WORD
    omega
  unfold quarter_fetch
  rw [pop_cell_ok s.memory s.sp h8 hw]
  dsimp only [bind, Except.bind]
  rw [if_neg hb]
  dsimp only [push_cell, pure, Except.pure]
  rw [e]

theorem quarter_fetch_oob (s : Machine) (h8 : 8 ≤ s.sp) (hw : s.sp < 2 ^ 64)
    (hb : read_cell s.memory (s.sp - 8) < 0
      ∨ read_cell s.memory (s.sp - 8) ≥ (MEMORY_SIZE : Int) - 8) :
    quarter_fetch s = .error (.outOfBounds (read_cell s.memory (s.sp - 8))) := by
  unfold quarter_fetch
  rw [pop_cell_ok s.memory s.sp h8 hw]
  dsimp only [bind, Except.bind]
  rw [if_pos hb]

theorem quarter_store_ok (s : Machine) (h16 : 16 ≤ s.sp) (hw : s.sp < 2 ^ 64)
    (hb : ¬ (read_cell s.memory (s.sp - 8) < 0
      ∨ read_cell s.memory (s.sp - 8) ≥ (MEMORY_SIZE : Int) - 8)) :
    quarter_store s = .ok { s with
      memory := write_cell s.memory (read_cell s.memory (s.sp - 8)).toNat
        (read_cell s.memory (s.sp - 16)),
      sp := s.sp - 16 } := by
  unfold quarter_store
  rw [pop_cell_ok s.memory s.sp (by omega) hw]
  dsimp only [bind, Except.bind]
  rw [pop_cell_ok s.memory (s.sp - 8) (by omega) (by omega)]
  dsimp only
  rw [if_neg hb]
  dsimp only [pure, Except.pure]
  rw [(sp_after_pop2_push s.sp h16 hw).2]

theorem quarter_store_oob (s : Machine) (h16 : 16 ≤ s.sp) (hw : s.sp < 2 ^ 64)
    (hb : read_cell s.memory (s.sp - 8) < 0
      ∨ read_cell s.memory (s.sp - 8) ≥ (MEMORY_SIZE : Int) - 8) :
    quarter_store s = .error (.outOfBounds (read_cell s.memory (s.sp - 8))) := by
  unfold quarter_store
  rw [pop_cell_ok s.memory s.sp (by omega) hw]
  dsimp only [bind, Except.bind]
  rw [pop_cell_ok s.memory (s.sp - 8) (by omega) (by omega)]
  dsimp only
  rw [if_pos hb]

theorem quarter_c_fetch_ok (s : Machine) (h8 : 8 ≤ s.sp) (hw : s.sp < 2 ^ 64)
    (hb : ¬ (read_cell s.memory (s.sp - 8) < 0
      ∨ read_cell s.memory (s.sp - 8) ≥ (MEMORY_SIZE : Int))) :
    quarter_c_fetch s = .ok { s with
      memory := write_cell s.memory (s.sp - 8)
        (read_byte s.memory (read_cell s.memory (s.sp - 8)).toNat : Nat),
      sp := s.sp } := by
  have e : (s.sp - 8 + 8) % WORD = s.sp := by
    unfold WORD
    omega
  unfold quarter_c_fetch
  rw [pop_cell_ok s.memory s.sp h8 hw]
  dsimp only [bind, Except.bind]
  rw [if_neg hb]
  dsimp only [push_cell, pure, Except.pure]
  rw [e]

theorem quarter_c_fetch_oob (s : Machine) (h8 : 8 ≤ s.sp) (hw : s.sp < 2 ^ 64)
    (hb : read_cell s.memory (s.sp - 8) < 0
      ∨ read_cell s.memory (s.sp - 8) ≥ (MEMORY_SIZE : Int)) :
    quarter_c_fetch s = .error (.outOfBounds (read_cell s.memory (s.sp - 8))) := by
  unfold quarter_c_fetch
  rw [pop_cell_ok s.memory s.sp h8 hw]
  dsimp only [bind, Except.bind]
  rw [if_pos hb]

theorem quarter_c_store_ok (s : Machine) (h16 : 16 ≤ s.sp) (hw : s.sp < 2 ^ 64)
    (hb : ¬ (read_cell s.memory (s.sp - 8) < 0
      ∨ read_cell s.memory (s.sp - 8) ≥ (MEMORY_SIZE : Int))) :
    quarter_c_store s = .ok { s with
      memory := write_byte s.memory (read_cell s.memory (s.sp - 8)).toNat
        (toU64 (read_cell s.memory (s.sp - 16)) % 256),
      sp := s.sp - 16 } := by
  unfold quarter_c_store
  rw [pop_cell_ok s.memory s.sp (by omega) hw]
  dsimp only [bind, Except.bind]
  rw [pop_cell_ok s.memory (s.sp - 8) (by omega) (by omega)]
  dsimp only
  rw [if_neg hb]
  dsimp only [pure, Except.pure]
  rw [(sp_after_pop2_push s.sp h16 hw).2]

theorem quarter_c_store_oob (s : Machine) (h16 : 16 ≤ s.sp) (hw : s.sp < 2 ^ 64)
    (hb : read_cell s.memory (s.sp - 8) < 0
      ∨ read_cell s.memory (s.sp - 8) ≥ (MEMORY_SIZE : Int)) :
    quarter_c_store s = .error (.outOfBounds (read_cell s.memory (s.sp - 8))) := by
  unfold quarter_c_store
  rw [pop_cell_ok s.memory s.sp (by omega) hw]
  dsimp only [bind, Except.bind]
  rw [pop_cell_ok s.memory (s.sp - 8) (by omega) (by omega)]
  dsimp only
  rw [if_pos hb]

theorem isCell_tdiv (a b : Int) (ha : isCell a) (hb0 : b ≠ 0)
    (hx : ¬ (a = -2 ^ 63 ∧ b = -1)) : isCell (Int.tdiv a b) := by
  unfold isCell at ha ⊢
  by_cases h1 : b = 1
  · subst h1
    rw [Int.tdiv_one]
    exact ha
  · by_cases h2 : b = -1
    · subst h2
      have e : Int.tdiv a (-1) = -a := by rw [Int.tdiv_neg, Int.tdiv_one]
      rw [e]
      omega
    · have hn : (Int.tdiv a b).natAbs = a.natAbs / b.natAbs := Int.natAbs_tdiv a b
      have hb2 : 2 ≤ b.natAbs := by omega
      have hd : a.natAbs / b.natAbs ≤ a.natAbs / 2 := Nat.div_le_div_left hb2 (by decide)
      omega

/-! ## C6: division -/

/-- C6 (as amended): on a data stack holding at least two cells, `a` second from top
and `b` on top, `div` faults with a division-by-zero error exactly when `b = 0`;
for every `b ≠ 0` and every 64-bit `a`, the pair `a = -2^63`, `b = -1` excepted,
it succeeds, replaces the two operands by the single cell `a / b` with the
quotient truncated toward zero, and leaves the pointer 8 less than before. -/
theorem quarter_div_spec (s : Machine) (a b : Int) (h16 : 16 ≤ s.sp) (hw : s.sp < 2 ^ 64)
    (ha : read_cell s.memory (s.sp - 16) = a) (hb : read_cell s.memory (s.sp - 8) = b) :
    (quarter_div s = .error .divisionByZero ↔ b = 0) ∧
    (b ≠ 0 → ¬ (a = -2 ^ 63 ∧ b = -1) →
      ∃ s1, quarter_div s = .ok s1 ∧ s1.sp + 8 = s.sp ∧
        read_cell s1.memory (s1.sp - 8) = Int.tdiv a b ∧
        (Int.tdiv a b).natAbs = a.natAbs / b.natAbs) := by
  refine ⟨?_, ?_⟩
  · constructor
    · intro he
      by_contra hne
      rw [quarter_div_ok s h16 hw (by rw [hb]; exact hne)] at he
      cases he
    · intro hz
      exact quarter_div_zero s h16 hw (by rw [hb]; exact hz)
  · intro hne hx
    refine ⟨_, quarter_div_ok s h16 hw (by rw [hb]; exact hne), ?_, ?_, Int.natAbs_tdiv a b⟩
    · show s.sp - 8 + 8 = s.sp
      omega
    · show read_cell (write_cell s.memory (s.sp - 16) _) (s.sp - 8 - 8) = _
      have e : s.sp - 8 - 8 = s.sp - 16 := by omega
      have hc : isCell (Int.tdiv a b) :=
        isCell_tdiv a b (by rw [← ha]; exact isCell_read_cell _ _) hne hx
      rw [e, read_cell_write_cell, ha, hb, wrap64_of_isCell _ hc, wrap64_of_isCell _ hc]

/-- C6, witness: `7 / 2 = 3` and `-7 / 2 = -3`. -/
theorem quarter_div_spec_witness :
    (∃ s1, quarter_div (stackOf [7, 2]) = .ok s1 ∧ s1.sp + 8 = (stackOf [7, 2]).sp ∧
      read_cell s1.memory (s1.sp - 8) = 3) ∧
    (∃ s1, quarter_div (stackOf [-7, 2]) = .ok s1 ∧ s1.sp + 8 = (stackOf [-7, 2]).sp ∧
      read_cell s1.memory (s1.sp - 8) = -3) := by
  constructor
  · obtain ⟨s1, h1, h2, h3, _⟩ :=
      (quarter_div_spec (stackOf [7, 2]) 7 2 (by decide) (by decide) (by decide) (by decide)).2
        (by decide) (by decide)
    exact ⟨s1, h1, h2, h3⟩
  · obtain ⟨s1, h1, h2, h3, _⟩ :=
      (quarter_div_spec (stackOf [-7, 2]) (-7) 2 (by decide) (by decide) (by decide) (by decide)).2
        (by decide) (by decide)
    exact ⟨s1, h1, h2, h3⟩

/-- C6, counterexample: with `a = -2^63` and `b = -1` (so `b ≠ 0`) the truncated
quotient is `2^63`, which no 64-bit cell holds: `div` does not leave `a / b` on
the stack. The embedding's two's-complement arithmetic leaves `-2^63`. -/
theorem quarter_div_min_by_minus_one :
    read_cell (stackOf [-2 ^ 63, -1]).memory ((stackOf [-2 ^ 63, -1]).sp - 16) = -2 ^ 63 ∧
    read_cell (stackOf [-2 ^ 63, -1]).memory ((stackOf [-2 ^ 63, -1]).sp - 8) = -1 ∧
    Int.tdiv (-2 ^ 63) (-1) = 2 ^ 63 ∧
    (∃ s1, quarter_div (stackOf [-2 ^ 63, -1]) = .ok s1 ∧
      read_cell s1.memory (s1.sp - 8) = -2 ^ 63) ∧
    ¬ (∃ s1, quarter_div (stackOf [-2 ^ 63, -1]) = .ok s1 ∧
      read_cell s1.memory (s1.sp - 8) = Int.tdiv (-2 ^ 63) (-1)) := by
  have hq : Int.tdiv (-2 ^ 63) (-1) = 2 ^ 63 := by decide
  refine ⟨by decide, by decide, hq, ?_, ?_⟩
  · refine ⟨_, quarter_div_ok (stackOf [-2 ^ 63, -1]) (by decide) (by decide) (by decide), ?_⟩
    show read_cell (write_cell _ _ _) _ = _
    decide
  · rintro ⟨s1, -, h2⟩
    have hc := isCell_read_cell s1.memory (s1.sp - 8)
    rw [h2, hq] at hc
    exact absurd hc (by decide)

/-! ## C7: wrapping arithmetic -/

theorem top_after_binop (s : Machine) (v : Int) (h16 : 16 ≤ s.sp) :
    read_cell (write_cell s.memory (s.sp - 16) v) (s.sp - 8 - 8) = wrap64 v := by
  have e : s.sp - 8 - 8 = s.sp - 16 := by omega
  rw [e, read_cell_write_cell]

theorem wrap64_wrap64 (v : Int) : wrap64 (wrap64 v) = wrap64 v :=
  wrap64_of_isCell _ (isCell_wrap64 v)

/-- C7: for all 64-bit cells `a` (second from top) and `b` (top), `add`, `sub` and
`mul` do not fault on a stack of at least two cells and leave, in place of the
operands, the cell that is congruent to `a + b`, `a - b`, `a * b` modulo `2^64`
and lies in `[-2^63, 2^63)`; `negate` on a stack of at least one cell does the
same for `-n`; in particular `add` of `2^63 - 1` and `1` yields `-2^63`. -/
theorem arithmetic_wraps (s : Machine) (hw : s.sp < 2 ^ 64) :
    (16 ≤ s.sp → ∀ a b : Int,
      read_cell s.memory (s.sp - 16) = a → read_cell s.memory (s.sp - 8) = b →
      (∃ s1 r, quarter_add s = .ok s1 ∧ s1.sp + 8 = s.sp ∧
        read_cell s1.memory (s1.sp - 8) = r ∧ isCell r ∧ (2 ^ 64 : Int) ∣ r - (a + b)) ∧
      (∃ s1 r, quarter_sub s = .ok s1 ∧ s1.sp + 8 = s.sp ∧
        read_cell s1.memory (s1.sp - 8) = r ∧ isCell r ∧ (2 ^ 64 : Int) ∣ r - (a - b)) ∧
      (∃ s1 r, quarter_mul s = .ok s1 ∧ s1.sp + 8 = s.sp ∧
        read_cell s1.memory (s1.sp - 8) = r ∧ isCell r ∧ (2 ^ 64 : Int) ∣ r - (a * b)) ∧
      (a = 2 ^ 63 - 1 → b = 1 →
        ∃ s1, quarter_add s = .ok s1 ∧ read_cell s1.memory (s1.sp - 8) = -2 ^ 63)) ∧
    (8 ≤ s.sp → ∀ n : Int, read_cell s.memory (s.sp - 8) = n →
      ∃ s1 r, quarter_negate s = .ok s1 ∧ s1.sp = s.sp ∧
        read_cell s1.memory (s1.sp - 8) = r ∧ isCell r ∧ (2 ^ 64 : Int) ∣ r - (-n)) := by
  refine ⟨?_, ?_⟩
  · intro h16 a b ha hb
    have hsp : s.sp - 8 + 8 = s.sp := by omega
    refine ⟨?_, ?_, ?_, ?_⟩
    · refine ⟨_, wrap64 (a + b), quarter_add_ok s h16 hw, hsp, ?_, isCell_wrap64 _,
        wrap64_congr _⟩
      show read_cell (write_cell s.memory (s.sp - 16) _) (s.sp - 8 - 8) = _
      rw [top_after_binop s _ h16, wrap64_wrap64, ha, hb]
    · refine ⟨_, wrap64 (a - b), quarter_sub_ok s h16 hw, hsp, ?_, isCell_wrap64 _,
        wrap64_congr _⟩
      show read_cell (write_cell s.memory (s.sp - 16) _) (s.sp - 8 - 8) = _
      rw [top_after_binop s _ h16, wrap64_wrap64, ha, hb]
    · refine ⟨_, wrap64 (a * b), quarter_mul_ok s h16 hw, hsp, ?_, isCell_wrap64 _,
        wrap64_congr _⟩
      show read_cell (write_cell s.memory (s.sp - 16) _) (s.sp - 8 - 8) = _
      rw [top_after_binop s _ h16, wrap64_wrap64, ha, hb]
    · intro ea eb
      refine ⟨_, quarter_add_ok s h16 hw, ?_⟩
      show read_cell (write_cell s.memory (s.sp - 16) _) (s.sp - 8 - 8) = _
      rw [top_after_binop s _ h16, wrap64_wrap64, ha, hb, ea, eb]
      decide
  · intro h8 n hn
    refine ⟨_, wrap64 (-n), quarter_negate_ok s h8 hw, rfl, ?_, isCell_wrap64 _, wrap64_congr _⟩
    show read_cell (write_cell s.memory (s.sp - 8) _) (s.sp - 8) = _
    rw [read_cell_write_cell, wrap64_wrap64, hn]

/-- C7, witness: `(2^63 - 1) + 1` wraps to `-2^63`. -/
theorem arithmetic_wraps_witness :
    ∃ s1, quarter_add (stackOf [2 ^ 63 - 1, 1]) = .ok s1 ∧
      read_cell s1.memory (s1.sp - 8) = -2 ^ 63 :=
  ((arithmetic_wraps (stackOf [2 ^ 63 - 1, 1]) (by decide)).1 (by decide) (2 ^ 63 - 1) 1
    (by decide) (by decide)).2.2.2 rfl rfl

/-! ## C8: comparison flags -/

/-- C8: for all 64-bit cells `a` (second from top) and `b` (top) on a data stack of
at least two cells, `less-than`, `greater-than` and `equal` replace the two
operands by one flag cell, which is -1 (all 64 bits set) when `a < b`, `a > b`,
`a = b` respectively under signed comparison and 0 otherwise; the flag is never
any other value. -/
theorem comparison_flags (s : Machine) (a b : Int) (h16 : 16 ≤ s.sp) (hw : s.sp < 2 ^ 64)
    (ha : read_cell s.memory (s.sp - 16) = a) (hb : read_cell s.memory (s.sp - 8) = b) :
    (∃ s1 flag, quarter_less_than s = .ok s1 ∧ s1.sp + 8 = s.sp ∧
      read_cell s1.memory (s1.sp - 8) = flag ∧ flag = (if a < b then -1 else 0) ∧
      (flag = -1 ∨ flag = 0) ∧
      read_u64 s1.memory (s1.sp - 8) = (if a < b then 2 ^ 64 - 1 else 0)) ∧
    (∃ s1 flag, quarter_gt s = .ok s1 ∧ s1.sp + 8 = s.sp ∧
      read_cell s1.memory (s1.sp - 8) = flag ∧ flag = (if a > b then -1 else 0) ∧
      (flag = -1 ∨ flag = 0) ∧
      read_u64 s1.memory (s1.sp - 8) = (if a > b then 2 ^ 64 - 1 else 0)) ∧
    (∃ s1 flag, quarter_equal s = .ok s1 ∧ s1.sp + 8 = s.sp ∧
      read_cell s1.memory (s1.sp - 8) = flag ∧ flag = (if a = b then -1 else 0) ∧
      (flag = -1 ∨ flag = 0) ∧
      read_u64 s1.memory (s1.sp - 8) = (if a = b then 2 ^ 64 - 1 else 0)) := by
  have hsp : s.sp - 8 + 8 = s.sp := by omega
  have e : s.sp - 8 - 8 = s.sp - 16 := by omega
  have w1 : wrap64 (-1) = -1 := by decide
  have w0 : wrap64 0 = 0 := by decide
  have u1 : toU64 (-1) = 2 ^ 64 - 1 := by decide
  have u0 : toU64 0 = 0 := by decide
  refine ⟨?_, ?_, ?_⟩
  · refine ⟨_, _, quarter_less_than_ok s h16 hw, hsp, ?_, rfl, ?_, ?_⟩
    · show read_cell (write_cell s.memory (s.sp - 16) _) (s.sp - 8 - 8) = _
      rw [top_after_binop s _ h16, ha, hb]
      split <;> assumption
    · split
      · exact Or.inl rfl
      · exact Or.inr rfl
    · show read_u64 (write_cell s.memory (s.sp - 16) _) (s.sp - 8 - 8) = _
      rw [e, read_u64_write_cell, ha, hb]
      split <;> assumption
  · refine ⟨_, _, quarter_gt_ok s h16 hw, hsp, ?_, rfl, ?_, ?_⟩
    · show read_cell (write_cell s.memory (s.sp - 16) _) (s.sp - 8 - 8) = _
      rw [top_after_binop s _ h16, ha, hb]
      split <;> assumption
    · split
      · exact Or.inl rfl
      · exact Or.inr rfl
    · show read_u64 (write_cell s.memory (s.sp - 16) _) (s.sp - 8 - 8) = _
      rw [e, read_u64_write_cell, ha, hb]
      split <;> assumption
  · refine ⟨_, _, quarter_equal_ok s h16 hw, hsp, ?_, rfl, ?_, ?_⟩
    · show read_cell (write_cell s.memory (s.sp - 16) _) (s.sp - 8 - 8) = _
      rw [top_after_binop s _ h16, ha, hb]
      split <;> assumption
    · split
      · exact Or.inl rfl
      · exact Or.inr rfl
    · show read_u64 (write_cell s.memory (s.sp - 16) _) (s.sp - 8 - 8) = _
      rw [e, read_u64_write_cell, ha, hb]
      split <;> assumption

/-- C8, witness: comparing `-5` with `3`: signed `-5 < 3` gives the flag -1. -/
theorem comparison_flags_witness :
    ∃ s1 flag, quarter_less_than (stackOf [-5, 3]) = .ok s1 ∧ s1.sp + 8 = (stackOf [-5, 3]).sp ∧
      read_cell s1.memory (s1.sp - 8) = flag ∧ flag = (if (-5 : Int) < 3 then -1 else 0) ∧
      (flag = -1 ∨ flag = 0) ∧
      read_u64 s1.memory (s1.sp - 8) = (if (-5 : Int) < 3 then 2 ^ 64 - 1 else 0) :=
  (comparison_flags (stackOf [-5, 3]) (-5) 3 (by decide) (by decide) (by decide) (by decide)).1

/-! ## C9: bounds of cell accesses -/

/-- What the bounds test of `fetch` and `store` accepts: the address `addr` on top
of the stack passes exactly when `0 ≤ addr < MEMORY_SIZE - 8`. -/
theorem cell_access_bounds (s : Machine) (hw : s.sp < 2 ^ 64) :
    (8 ≤ s.sp →
      (quarter_fetch s = .error (.outOfBounds (read_cell s.memory (s.sp - 8))) ↔
        (read_cell s.memory (s.sp - 8) < 0
          ∨ read_cell s.memory (s.sp - 8) ≥ (MEMORY_SIZE : Int) - 8))) ∧
    (16 ≤ s.sp →
      (quarter_store s = .error (.outOfBounds (read_cell s.memory (s.sp - 8))) ↔
        (read_cell s.memory (s.sp - 8) < 0
          ∨ read_cell s.memory (s.sp - 8) ≥ (MEMORY_SIZE : Int) - 8))) := by
  refine ⟨?_, ?_⟩
  · intro h8
    constructor
    · intro he
      by_contra hb
      rw [quarter_fetch_ok s h8 hw hb] at he
      cases he
    · exact quarter_fetch_oob s h8 hw
  · intro h16
    constructor
    · intro he
      by_contra hb
      rw [quarter_store_ok s h16 hw hb] at he
      cases he
    · exact quarter_store_oob s h16 hw

/-- C9, the code at the failing input: with the address `8388600 = capacity - 8` on
top of the data stack, whose 8 bytes `[8388600, 8388608)` lie inside the
region, `fetch` and `store` both fault with an out-of-bounds error. -/
theorem cell_access_rejects_last_cell :
    (8388600 : Int) = (MEMORY_SIZE : Int) - 8 ∧ 8388600 + 8 ≤ MEMORY_SIZE ∧
    quarter_fetch (stackOf [8388600]) = .error (.outOfBounds 8388600) ∧
    quarter_store (stackOf [42, 8388600]) = .error (.outOfBounds 8388600) := by
  refine ⟨by decide, by decide, ?_, ?_⟩
  · have h := quarter_fetch_oob (stackOf [8388600]) (by decide) (by decide) (by decide)
    have e : read_cell (stackOf [8388600]).memory ((stackOf [8388600]).sp - 8) = 8388600 := by
      decide
    rw [e] at h
    exact h
  · have h := quarter_store_oob (stackOf [42, 8388600]) (by decide) (by decide) (by decide)
    have e : read_cell (stackOf [42, 8388600]).memory ((stackOf [42, 8388600]).sp - 8)
        = 8388600 := by
      decide
    rw [e] at h
    exact h

/-! ## C10: bounds of byte accesses -/

theorem write_byte_same (m : Memory) (off b : Nat) :
    read_byte (write_byte m off b) off = b % 256 := by
  unfold read_byte write_byte
  simp [Fin.ofNat]

theorem write_byte_other (m : Memory) (off b a : Nat) (h : a ≠ off) :
    write_byte m off b a = m a := by
  unfold write_byte
  rw [if_neg h]

theorem read_byte_lt (m : Memory) (off : Nat) : read_byte m off < 256 := (m off).isLt

/-- C10: with capacity 8388608 and enough operands on the data stack, `byte-fetch`
and `byte-store` fault with an out-of-bounds error exactly when the popped
address satisfies `addr < 0` or `addr ≥ capacity`; every address with
`0 ≤ addr < capacity` is accepted, and the byte read or written is the one at
offset `addr`, inside the memory region: `byte-fetch` leaves that byte,
zero-extended, on the stack and `byte-store` changes no byte but that one. -/
theorem byte_access_bounds (s : Machine) (addr : Int) (hw : s.sp < 2 ^ 64)
    (haddr : read_cell s.memory (s.sp - 8) = addr) :
    (8 ≤ s.sp →
      (quarter_c_fetch s = .error (.outOfBounds addr) ↔ (addr < 0 ∨ addr ≥ 8388608)) ∧
      (0 ≤ addr ∧ addr < 8388608 →
        addr.toNat < MEMORY_SIZE ∧
        ∃ s1, quarter_c_fetch s = .ok s1 ∧ s1.sp = s.sp ∧
          read_cell s1.memory (s1.sp - 8) = (read_byte s.memory addr.toNat : Nat))) ∧
    (16 ≤ s.sp →
      (quarter_c_store s = .error (.outOfBounds addr) ↔ (addr < 0 ∨ addr ≥ 8388608)) ∧
      (0 ≤ addr ∧ addr < 8388608 →
        addr.toNat < MEMORY_SIZE ∧
        ∃ s1, quarter_c_store s = .ok s1 ∧ s1.sp + 16 = s.sp ∧
          read_byte s1.memory addr.toNat = toU64 (read_cell s.memory (s.sp - 16)) % 256 ∧
          ∀ off, off ≠ addr.toNat → s1.memory off = s.memory off)) := by
  have hm : (MEMORY_SIZE : Int) = 8388608 := by decide
  have hmn : MEMORY_SIZE = 8388608 := by decide
  refine ⟨?_, ?_⟩
  · intro h8
    refine ⟨?_, ?_⟩
    · constructor
      · intro he
        by_contra hb
        rw [quarter_c_fetch_ok s h8 hw (by rw [haddr, hm]; exact hb)] at he
        cases he
      · intro hb
        have h := quarter_c_fetch_oob s h8 hw (by rw [haddr, hm]; exact hb)
        rw [haddr] at h
        exact h
    · intro hb
      refine ⟨by omega, _, quarter_c_fetch_ok s h8 hw (by rw [haddr, hm]; omega), rfl, ?_⟩
      show read_cell (write_cell s.memory (s.sp - 8) _) (s.sp - 8) = _
      rw [read_cell_write_cell, haddr]
      have hlt := read_byte_lt s.memory addr.toNat
      apply wrap64_of_isCell
      unfold isCell
      omega
  · intro h16
    refine ⟨?_, ?_⟩
    · constructor
      · intro he
        by_contra hb
        rw [quarter_c_store_ok s h16 hw (by rw [haddr, hm]; exact hb)] at he
        cases he
      · intro hb
        have h := quarter_c_store_oob s h16 hw (by rw [haddr, hm]; exact hb)
        rw [haddr] at h
        exact h
    · intro hb
      refine ⟨by omega, _, quarter_c_store_ok s h16 hw (by rw [haddr, hm]; omega), ?_, ?_, ?_⟩
      · show s.sp - 16 + 16 = s.sp
        omega
      · show read_byte (write_byte s.memory _ _) addr.toNat = _
        rw [haddr, write_byte_same]
        omega
      · intro off hoff
        show write_byte s.memory _ _ off = _
        rw [haddr]
        exact write_byte_other _ _ _ _ hoff

/-- C10, witness: the last byte of the region, address `8388607`, is accepted by
`byte-fetch` and by `byte-store`. -/
theorem byte_access_bounds_witness :
    (8388607 : Int).toNat < MEMORY_SIZE ∧
    (∃ s1, quarter_c_fetch (stackOf [255, 8388607]) = .ok s1 ∧
      s1.sp = (stackOf [255, 8388607]).sp ∧
      read_cell s1.memory (s1.sp - 8)
        = (read_byte (stackOf [255, 8388607]).memory (8388607 : Int).toNat : Nat)) ∧
    (∃ s1, quarter_c_store (stackOf [255, 8388607]) = .ok s1 ∧
      s1.sp + 16 = (stackOf [255, 8388607]).sp ∧
      read_byte s1.memory (8388607 : Int).toNat
        = toU64 (read_cell (stackOf [255, 8388607]).memory ((stackOf [255, 8388607]).sp - 16))
          % 256 ∧
      ∀ off, off ≠ (8388607 : Int).toNat →
        s1.memory off = (stackOf [255, 8388607]).memory off) :=
  ⟨(((byte_access_bounds (stackOf [255, 8388607]) 8388607 (by decide) (by decide)).1
      (by decide)).2 (by decide)).1,
    (((byte_access_bounds (stackOf [255, 8388607]) 8388607 (by decide) (by decide)).1
      (by decide)).2 (by decide)).2,
    (((byte_access_bounds (stackOf [255, 8388607]) 8388607 (by decide) (by decide)).2
      (by decide)).2 (by decide)).2⟩

/-! ## Further facts used by the sequence and frame properties -/

theorem push_memory (v : Int) (s : Machine) :
    (push v s).memory = write_cell s.memory s.sp v := rfl

theorem push_sp (v : Int) (s : Machine) (h : s.sp + 8 < 2 ^ 64) :
    (push v s).sp = s.sp + 8 := by
  show (s.sp + 8) % WORD = s.sp + 8
  unfold WORD
  omega

theorem push_rp (v : Int) (s : Machine) : (push v s).rp = s.rp := rfl

theorem push_out (v : Int) (s : Machine) : (push v s).out = s.out := rfl

theorem peek_cell_zero_ok (m : Memory) (sp : Nat) (h8 : 8 ≤ sp) (hw : sp < 2 ^ 64) :
    peek_cell m sp 0 = .ok (read_cell m (sp - 8)) := by
  have hc : ¬ (sp ≤ (STACK_BASE + 0 * 8) % WORD) := by
    unfold STACK_BASE WORD
    omega
  have e : (sp + 2 * WORD - 8 - (0 * 8) % WORD) % WORD = sp - 8 := by
    unfold WORD
    omega
  unfold peek_cell
  rw [if_neg hc, e]

theorem peek_cell_one_ok (m : Memory) (sp : Nat) (h16 : 16 ≤ sp) (hw : sp < 2 ^ 64) :
    peek_cell m sp 1 = .ok (read_cell m (sp - 16)) := by
  have hc : ¬ (sp ≤ (STACK_BASE + 1 * 8) % WORD) := by
    unfold STACK_BASE WORD
    omega
  have e : (sp + 2 * WORD - 8 - (1 * 8) % WORD) % WORD = sp - 16 := by
    unfold WORD
    omega
  unfold peek_cell
  rw [if_neg hc, e]

theorem peek_cell_zero_underflow (m : Memory) : peek_cell m 0 0 = .error .stackUnderflow := by
  have hc : (0 : Nat) ≤ (STACK_BASE + 0 * 8) % WORD := Nat.zero_le _
  unfold peek_cell
  rw [if_pos hc]

theorem quarter_dup_ok (s : Machine) (h8 : 8 ≤ s.sp) (hw : s.sp + 8 < 2 ^ 64) :
    quarter_dup s = .ok { s with
      memory := write_cell s.memory s.sp (read_cell s.memory (s.sp - 8)),
      sp := s.sp + 8 } := by
  have e : (s.sp + 8) % WORD = s.sp + 8 := by
    unfold WORD
    omega
  unfold quarter_dup
  rw [peek_cell_zero_ok s.memory s.sp h8 (by omega)]
  dsimp only [bind, Except.bind, push_cell, pure, Except.pure]
  rw [e]

theorem quarter_over_ok (s : Machine) (h16 : 16 ≤ s.sp) (hw : s.sp + 8 < 2 ^ 64) :
    quarter_over s = .ok { s with
      memory := write_cell s.memory s.sp (read_cell s.memory (s.sp - 16)),
      sp := s.sp + 8 } := by
  have e : (s.sp + 8) % WORD = s.sp + 8 := by
    unfold WORD
    omega
  unfold quarter_over
  rw [peek_cell_one_ok s.memory s.sp h16 (by omega)]
  dsimp only [bind, Except.bind, push_cell, pure, Except.pure]
  rw [e]

theorem quarter_drop_ok (s : Machine) (h8 : 8 ≤ s.sp) (hw : s.sp < 2 ^ 64) :
    quarter_drop s = .ok { s with sp := s.sp - 8 } := by
  unfold quarter_drop
  rw [pop_cell_ok s.memory s.sp h8 hw]
  rfl

theorem quarter_swap_ok (s : Machine) (h16 : 16 ≤ s.sp) (hw : s.sp < 2 ^ 64) :
    quarter_swap s = .ok { s with
      memory := write_cell (write_cell s.memory (s.sp - 16) (read_cell s.memory (s.sp - 8)))
        (s.sp - 8) (read_cell s.memory (s.sp - 16)),
      sp := s.sp } := by
  have e1 : s.sp - 8 - 8 = s.sp - 16 := by omega
  have e2 : (s.sp - 16 + 8) % WORD = s.sp - 8 := by
    unfold WORD
    omega
  have e3 : (s.sp - 8 + 8) % WORD = s.sp := by
    unfold WORD
    omega
  unfold quarter_swap
  rw [pop_cell_ok s.memory s.sp (by omega) hw]
  dsimp only [bind, Except.bind]
  rw [pop_cell_ok s.memory (s.sp - 8) (by omega) (by omega)]
  dsimp only [push_cell, pure, Except.pure]
  rw [e1, e2, e3]

theorem quarter_rot_ok (s : Machine) (h24 : 24 ≤ s.sp) (hw : s.sp < 2 ^ 64) :
    quarter_rot s = .ok { s with
      memory := write_cell (write_cell (write_cell s.memory (s.sp - 24)
        (read_cell s.memory (s.sp - 16))) (s.sp - 16) (read_cell s.memory (s.sp - 8)))
        (s.sp - 8) (read_cell s.memory (s.sp - 24)),
      sp := s.sp } := by
  have e1 : s.sp - 8 - 8 = s.sp - 16 := by omega
  have e0 : s.sp - 16 - 8 = s.sp - 24 := by omega
  have e2 : (s.sp - 24 + 8) % WORD = s.sp - 16 := by
    unfold WORD
    omega
  have e3 : (s.sp - 16 + 8) % WORD = s.sp - 8 := by
    unfold WORD
    omega
  have e4 : (s.sp - 8 + 8) % WORD = s.sp := by
    unfold WORD
    omega
  unfold quarter_rot
  rw [pop_cell_ok s.memory s.sp (by omega) hw]
  dsimp only [bind, Except.bind]
  rw [pop_cell_ok s.memory (s.sp - 8) (by omega) (by omega)]
  dsimp only
  rw [e1, pop_cell_ok s.memory (s.sp - 16) (by omega) (by omega)]
  dsimp only [push_cell, pure, Except.pure]
  rw [e0, e2, e3, e4]

/-- Writing back the cell read at `off` restores every byte of that cell. -/
theorem write_cell_read_cell_apply (m m1 : Memory) (off x : Nat)
    (h : off ≤ x ∧ x < off + 8) : write_cell m off (read_cell m1 off) x = m1 x := by
  have hu := read_u64_lt m1 off
  unfold write_cell
  rw [if_pos h]
  unfold read_cell
  rw [toU64_toInt64 _ hu]
  apply Fin.ext
  unfold read_u64 read_byte
  have h0 := (m1 off).isLt
  have h1 := (m1 (off + 1)).isLt
  have h2 := (m1 (off + 2)).isLt
  have h3 := (m1 (off + 3)).isLt
  have h4 := (m1 (off + 4)).isLt
  have h5 := (m1 (off + 5)).isLt
  have h6 := (m1 (off + 6)).isLt
  have h7 := (m1 (off + 7)).isLt
  obtain ⟨hl, hr⟩ := h
  have hx : x = off ∨ x = off + 1 ∨ x = off + 2 ∨ x = off + 3 ∨ x = off + 4 ∨ x = off + 5
      ∨ x = off + 6 ∨ x = off + 7 := by omega
  rcases hx with rfl | rfl | rfl | rfl | rfl | rfl | rfl | rfl
  all_goals simp [Fin.ofNat]
  all_goals omega

theorem push_mk (v : Int) (m : Memory) (sp rp : Nat) (out : List Nat) (h : sp + 8 < 2 ^ 64) :
    push v ⟨m, sp, rp, out⟩ = ⟨write_cell m sp v, sp + 8, rp, out⟩ := by
  have e : (sp + 8) % WORD = sp + 8 := by
    unfold WORD
    omega
  unfold push push_cell
  dsimp only
  rw [e]

theorem quarter_store_mk (m : Memory) (sp rp : Nat) (out : List Nat) (a v : Int)
    (h16 : 16 ≤ sp) (hw : sp < 2 ^ 64)
    (hA : read_cell m (sp - 8) = a) (hV : read_cell m (sp - 16) = v)
    (ha : ¬ (a < 0 ∨ a ≥ (MEMORY_SIZE : Int) - 8)) :
    quarter_store ⟨m, sp, rp, out⟩ = .ok ⟨write_cell m a.toNat v, sp - 16, rp, out⟩ := by
  rw [quarter_store_ok ⟨m, sp, rp, out⟩ h16 hw (by dsimp only; rw [hA]; exact ha)]
  dsimp only
  rw [hA, hV]

theorem quarter_fetch_mk (m : Memory) (sp rp : Nat) (out : List Nat) (a : Int)
    (h8 : 8 ≤ sp) (hw : sp < 2 ^ 64) (hA : read_cell m (sp - 8) = a)
    (ha : ¬ (a < 0 ∨ a ≥ (MEMORY_SIZE : Int) - 8)) :
    quarter_fetch ⟨m, sp, rp, out⟩
      = .ok ⟨write_cell m (sp - 8) (read_cell m a.toNat), sp, rp, out⟩ := by
  rw [quarter_fetch_ok ⟨m, sp, rp, out⟩ h8 hw (by dsimp only; rw [hA]; exact ha)]
  dsimp only
  rw [hA]

theorem quarter_c_store_mk (m : Memory) (sp rp : Nat) (out : List Nat) (a v : Int)
    (h16 : 16 ≤ sp) (hw : sp < 2 ^ 64)
    (hA : read_cell m (sp - 8) = a) (hV : read_cell m (sp - 16) = v)
    (ha : ¬ (a < 0 ∨ a ≥ (MEMORY_SIZE : Int))) :
    quarter_c_store ⟨m, sp, rp, out⟩
      = .ok ⟨write_byte m a.toNat (toU64 v % 256), sp - 16, rp, out⟩ := by
  rw [quarter_c_store_ok ⟨m, sp, rp, out⟩ h16 hw (by dsimp only; rw [hA]; exact ha)]
  dsimp only
  rw [hA, hV]

theorem quarter_c_fetch_mk (m : Memory) (sp rp : Nat) (out : List Nat) (a : Int)
    (h8 : 8 ≤ sp) (hw : sp < 2 ^ 64) (hA : read_cell m (sp - 8) = a)
    (ha : ¬ (a < 0 ∨ a ≥ (MEMORY_SIZE : Int))) :
    quarter_c_fetch ⟨m, sp, rp, out⟩
      = .ok ⟨write_cell m (sp - 8) (read_byte m a.toNat : Nat), sp, rp, out⟩ := by
  rw [quarter_c_fetch_ok ⟨m, sp, rp, out⟩ h8 hw (by dsimp only; rw [hA]; exact ha)]
  dsimp only
  rw [hA]

theorem read_byte_write_cell_outside (m : Memory) (off : Nat) (v : Int) (x : Nat)
    (h : x < off ∨ off + 8 ≤ x) : read_byte (write_cell m off v) x = read_byte m x := by
  unfold read_byte
  rw [write_cell_outside m off v x h]

/-! ## C11: store then fetch -/

/-- C11: for every 64-bit cell `v`, every data-stack pointer `s` (two more cells fit
below `2^64`) and every address `a` accepted by the cell bounds check whose 8
bytes `[a, a+8)` do not overlap the stack cell `[s, s+8)`, the sequence
push `v`; push `a`; store; push `a`; fetch run from pointer `s` does not fault
and ends with `v` on top of the data stack and the pointer at `s + 8`. -/
theorem store_fetch_roundtrip (s0 : Machine) (v a : Int) (hv : isCell v)
    (hs : s0.sp + 16 < 2 ^ 64)
    (ha : ¬ (a < 0 ∨ a ≥ (MEMORY_SIZE : Int) - 8))
    (hdis : a.toNat + 8 ≤ s0.sp ∨ s0.sp + 8 ≤ a.toNat) :
    ∃ s3 s5, quarter_store (push a (push v s0)) = .ok s3 ∧
      quarter_fetch (push a s3) = .ok s5 ∧
      s5.sp = s0.sp + 8 ∧ read_cell s5.memory (s5.sp - 8) = v := by
  obtain ⟨m, sp, rp, out⟩ := s0
  dsimp only at hs hdis ⊢
  have hm : (MEMORY_SIZE : Int) = 8388608 := by decide
  have hca : isCell a := by
    unfold isCell
    omega
  have e1 : sp + 8 + 8 - 8 = sp + 8 := by omega
  have e2 : sp + 8 + 8 - 16 = sp := by omega
  have e3 : sp + 8 - 8 = sp := by omega
  have hA : read_cell (write_cell (write_cell m sp v) (sp + 8) a) (sp + 8 + 8 - 8) = a := by
    rw [e1, read_cell_write_cell, wrap64_of_isCell a hca]
  have hV : read_cell (write_cell (write_cell m sp v) (sp + 8) a) (sp + 8 + 8 - 16) = v := by
    rw [e2, read_cell_write_cell_disjoint _ _ _ _ (Or.inl (le_refl _)), read_cell_write_cell,
      wrap64_of_isCell v hv]
  have hA2 : read_cell (write_cell (write_cell (write_cell (write_cell m sp v) (sp + 8) a)
      a.toNat v) sp a) (sp + 8 - 8) = a := by
    rw [e3, read_cell_write_cell, wrap64_of_isCell a hca]
  refine ⟨⟨write_cell (write_cell (write_cell m sp v) (sp + 8) a) a.toNat v, sp + 8 + 8 - 16,
    rp, out⟩, ⟨write_cell (write_cell (write_cell (write_cell (write_cell m sp v) (sp + 8) a)
      a.toNat v) sp a) (sp + 8 - 8) (read_cell (write_cell (write_cell (write_cell
      (write_cell m sp v) (sp + 8) a) a.toNat v) sp a) a.toNat), sp + 8, rp, out⟩, ?_, ?_, rfl, ?_⟩
  · rw [push_mk v m sp rp out (by omega), push_mk a _ (sp + 8) rp out (by omega)]
    exact quarter_store_mk _ (sp + 8 + 8) rp out a v (by omega) (by omega) hA hV ha
  · rw [e2, push_mk a _ sp rp out (by omega)]
    exact quarter_fetch_mk _ (sp + 8) rp out a (by omega) (by omega) hA2 ha
  · show read_cell (write_cell _ (sp + 8 - 8) _) (sp + 8 - 8) = v
    rw [read_cell_write_cell, read_cell_write_cell_disjoint _ _ _ _ (by omega),
      read_cell_write_cell, wrap64_wrap64, wrap64_of_isCell v hv]

/-- C11, witness: `v = 42`, `a = 0x100`, `s = 0`. -/
theorem store_fetch_roundtrip_witness :
    ∃ s3 s5, quarter_store (push 0x100 (push 42 (stackOf []))) = .ok s3 ∧
      quarter_fetch (push 0x100 s3) = .ok s5 ∧
      s5.sp = (stackOf []).sp + 8 ∧ read_cell s5.memory (s5.sp - 8) = 42 :=
  store_fetch_roundtrip (stackOf []) 42 0x100 (by decide) (by decide) (by decide) (by decide)

/-! ## C12: byte-store then byte-fetch -/

/-- C12: for every 64-bit cell `v`, every data-stack pointer `s` (two more cells fit
below `2^64`) and every address `a` accepted by the byte bounds check that does
not lie in the stack cell `[s, s+8)`, the sequence push `v`; push `a`;
byte-store; push `a`; byte-fetch run from pointer `s` does not fault and ends
with the cell `v mod 256` on top of the data stack, a value in `0..255`. -/
theorem byte_store_fetch_roundtrip (s0 : Machine) (v a : Int) (hv : isCell v)
    (hs : s0.sp + 16 < 2 ^ 64)
    (ha : ¬ (a < 0 ∨ a ≥ (MEMORY_SIZE : Int)))
    (hdis : a.toNat < s0.sp ∨ s0.sp + 8 ≤ a.toNat) :
    ∃ s3 s5, quarter_c_store (push a (push v s0)) = .ok s3 ∧
      quarter_c_fetch (push a s3) = .ok s5 ∧
      s5.sp = s0.sp + 8 ∧ read_cell s5.memory (s5.sp - 8) = v % 256 ∧
      0 ≤ read_cell s5.memory (s5.sp - 8) ∧ read_cell s5.memory (s5.sp - 8) ≤ 255 := by
  obtain ⟨m, sp, rp, out⟩ := s0
  dsimp only at hs hdis ⊢
  have hm : (MEMORY_SIZE : Int) = 8388608 := by decide
  have hca : isCell a := by
    unfold isCell
    omega
  have e1 : sp + 8 + 8 - 8 = sp + 8 := by omega
  have e2 : sp + 8 + 8 - 16 = sp := by omega
  have e3 : sp + 8 - 8 = sp := by omega
  have hA : read_cell (write_cell (write_cell m sp v) (sp + 8) a) (sp + 8 + 8 - 8) = a := by
    rw [e1, read_cell_write_cell, wrap64_of_isCell a hca]
  have hV : read_cell (write_cell (write_cell m sp v) (sp + 8) a) (sp + 8 + 8 - 16) = v := by
    rw [e2, read_cell_write_cell_disjoint _ _ _ _ (Or.inl (le_refl _)), read_cell_write_cell,
      wrap64_of_isCell v hv]
  have hA2 : read_cell (write_cell (write_byte (write_cell (write_cell m sp v) (sp + 8) a)
      a.toNat (toU64 v % 256)) sp a) (sp + 8 - 8) = a := by
    rw [e3, read_cell_write_cell, wrap64_of_isCell a hca]
  have hB : read_byte (write_cell (write_byte (write_cell (write_cell m sp v) (sp + 8) a)
      a.toNat (toU64 v % 256)) sp a) a.toNat = toU64 v % 256 := by
    rw [read_byte_write_cell_outside _ _ _ _ (by omega), write_byte_same]
    omega
  have hT : ((toU64 v % 256 : Nat) : Int) = v % 256 := by
    unfold toU64
    omega
  have hcell : isCell ((toU64 v % 256 : Nat) : Int) := by
    unfold isCell
    omega
  have htop : read_cell (write_cell (write_cell (write_byte (write_cell (write_cell m sp v)
      (sp + 8) a) a.toNat (toU64 v % 256)) sp a) (sp + 8 - 8)
      ((read_byte (write_cell (write_byte (write_cell (write_cell m sp v) (sp + 8) a)
        a.toNat (toU64 v % 256)) sp a) a.toNat : Nat) : Int)) (sp + 8 - 8) = v % 256 := by
    rw [read_cell_write_cell, hB, wrap64_of_isCell _ hcell, hT]
  refine ⟨⟨write_byte (write_cell (write_cell m sp v) (sp + 8) a) a.toNat (toU64 v % 256),
    sp + 8 + 8 - 16, rp, out⟩, ⟨write_cell (write_cell (write_byte (write_cell
      (write_cell m sp v) (sp + 8) a) a.toNat (toU64 v % 256)) sp a) (sp + 8 - 8)
      ((read_byte (write_cell (write_byte (write_cell (write_cell m sp v) (sp + 8) a)
        a.toNat (toU64 v % 256)) sp a) a.toNat : Nat) : Int), sp + 8, rp, out⟩,
    ?_, ?_, rfl, htop, ?_, ?_⟩
  · rw [push_mk v m sp rp out (by omega), push_mk a _ (sp + 8) rp out (by omega)]
    exact quarter_c_store_mk _ (sp + 8 + 8) rp out a v (by omega) (by omega) hA hV ha
  · rw [e2, push_mk a _ sp rp out (by omega)]
    exact quarter_c_fetch_mk _ (sp + 8) rp out a (by omega) (by omega) hA2 ha
  · show 0 ≤ read_cell (write_cell _ (sp + 8 - 8) _) (sp + 8 - 8)
    rw [htop]
    omega
  · show read_cell (write_cell _ (sp + 8 - 8) _) (sp + 8 - 8) ≤ 255
    rw [htop]
    omega

/-- C12, witness: `v = 0xFF` and `v = -1` both give 255 (address `0x100`, `s = 0`). -/
theorem byte_store_fetch_roundtrip_witness :
    (∃ s3 s5, quarter_c_store (push 0x100 (push 0xFF (stackOf []))) = .ok s3 ∧
      quarter_c_fetch (push 0x100 s3) = .ok s5 ∧ read_cell s5.memory (s5.sp - 8) = 255) ∧
    (∃ s3 s5, quarter_c_store (push 0x100 (push (-1) (stackOf []))) = .ok s3 ∧
      quarter_c_fetch (push 0x100 s3) = .ok s5 ∧ read_cell s5.memory (s5.sp - 8) = 255) := by
  constructor
  · obtain ⟨s3, s5, h1, h2, -, h4, -, -⟩ :=
      byte_store_fetch_roundtrip (stackOf []) 0xFF 0x100 (by decide) (by decide) (by decide)
        (by decide)
    exact ⟨s3, s5, h1, h2, h4⟩
  · obtain ⟨s3, s5, h1, h2, -, h4, -, -⟩ :=
      byte_store_fetch_roundtrip (stackOf []) (-1) 0x100 (by decide) (by decide) (by decide)
        (by decide)
    exact ⟨s3, s5, h1, h2, h4⟩

/-! ## C13: dup -/

/-- C13: for every 64-bit cell `x` and every data-stack pointer `s` (two more cells
fit below `2^64`), after push `x`; dup run from pointer `s` the pointer is
`s + 16` and the two consecutive cells at offsets `s` and `s + 8` both equal
`x`; dup on an empty data stack faults with a stack underflow. -/
theorem push_dup (s0 : Machine) (x : Int) (hx : isCell x) (hs : s0.sp + 16 < 2 ^ 64) :
    (∃ s2, quarter_dup (push x s0) = .ok s2 ∧ s2.sp = s0.sp + 16 ∧
      read_cell s2.memory s0.sp = x ∧ read_cell s2.memory (s0.sp + 8) = x) ∧
    (∀ e : Machine, e.sp = STACK_BASE → quarter_dup e = .error .stackUnderflow) := by
  refine ⟨?_, ?_⟩
  · obtain ⟨m, sp, rp, out⟩ := s0
    dsimp only at hs ⊢
    have e1 : sp + 8 - 8 = sp := by omega
    refine ⟨⟨write_cell (write_cell m sp x) (sp + 8) (read_cell (write_cell m sp x) (sp + 8 - 8)),
      sp + 8 + 8, rp, out⟩, ?_, rfl, ?_, ?_⟩
    · rw [push_mk x m sp rp out (by omega)]
      exact quarter_dup_ok ⟨write_cell m sp x, sp + 8, rp, out⟩ (by dsimp only; omega)
        (by dsimp only; omega)
    · show read_cell (write_cell _ (sp + 8) _) sp = x
      rw [read_cell_write_cell_disjoint _ _ _ _ (Or.inl (le_refl _)), read_cell_write_cell,
        wrap64_of_isCell x hx]
    · show read_cell (write_cell _ (sp + 8) _) (sp + 8) = x
      rw [e1, read_cell_write_cell, read_cell_write_cell, wrap64_wrap64, wrap64_of_isCell x hx]
  · intro e he
    unfold quarter_dup
    rw [he]
    unfold STACK_BASE
    rw [peek_cell_zero_underflow]
    rfl

/-- C13, witness: push 7; dup on the empty stack. -/
theorem push_dup_witness :
    (∃ s2, quarter_dup (push 7 (stackOf [])) = .ok s2 ∧ s2.sp = (stackOf []).sp + 16 ∧
      read_cell s2.memory (stackOf []).sp = 7 ∧ read_cell s2.memory ((stackOf []).sp + 8) = 7) ∧
    (∀ e : Machine, e.sp = STACK_BASE → quarter_dup e = .error .stackUnderflow) :=
  push_dup (stackOf []) 7 (by decide) (by decide)

/-! ## C14: swap is its own inverse -/

theorem read_cell_congr (m m1 : Memory) (off : Nat)
    (h : ∀ x, off ≤ x ∧ x < off + 8 → m x = m1 x) : read_cell m off = read_cell m1 off := by
  unfold read_cell read_u64 read_byte
  rw [h off (by omega), h (off + 1) (by omega), h (off + 2) (by omega), h (off + 3) (by omega),
    h (off + 4) (by omega), h (off + 5) (by omega), h (off + 6) (by omega), h (off + 7) (by omega)]

/-- C14: for every state whose data stack holds at least two cells, `a` below `b`,
a single swap does not fault and leaves `b` below `a` with the pointer
unchanged, and applying swap twice restores the state exactly: the stack
pointer and every byte of memory are what they were before the first swap. -/
theorem swap_swap (s : Machine) (h16 : 16 ≤ s.sp) (hw : s.sp < 2 ^ 64) :
    ∃ s1, quarter_swap s = .ok s1 ∧ s1.sp = s.sp ∧
      read_cell s1.memory (s.sp - 16) = read_cell s.memory (s.sp - 8) ∧
      read_cell s1.memory (s.sp - 8) = read_cell s.memory (s.sp - 16) ∧
      quarter_swap s1 = .ok s := by
  obtain ⟨m, sp, rp, out⟩ := s
  dsimp only at h16 hw ⊢
  have hlo : read_cell (write_cell (write_cell m (sp - 16) (read_cell m (sp - 8))) (sp - 8)
      (read_cell m (sp - 16))) (sp - 16) = read_cell m (sp - 8) := by
    rw [read_cell_write_cell_disjoint _ _ _ _ (by omega), read_cell_write_cell,
      wrap64_of_isCell _ (isCell_read_cell _ _)]
  have hhi : read_cell (write_cell (write_cell m (sp - 16) (read_cell m (sp - 8))) (sp - 8)
      (read_cell m (sp - 16))) (sp - 8) = read_cell m (sp - 16) := by
    rw [read_cell_write_cell, wrap64_of_isCell _ (isCell_read_cell _ _)]
  refine ⟨⟨write_cell (write_cell m (sp - 16) (read_cell m (sp - 8))) (sp - 8)
    (read_cell m (sp - 16)), sp, rp, out⟩, quarter_swap_ok ⟨m, sp, rp, out⟩ h16 hw, rfl,
    hlo, hhi, ?_⟩
  rw [quarter_swap_ok _ h16 hw]
  dsimp only
  rw [hlo, hhi]
  have hmem : write_cell (write_cell (write_cell (write_cell m (sp - 16) (read_cell m (sp - 8)))
      (sp - 8) (read_cell m (sp - 16))) (sp - 16) (read_cell m (sp - 16))) (sp - 8)
      (read_cell m (sp - 8)) = m := by
    funext x
    by_cases hx8 : sp - 8 ≤ x ∧ x < sp - 8 + 8
    · exact write_cell_read_cell_apply _ m (sp - 8) x hx8
    · rw [write_cell_outside _ _ _ _ (by omega)]
      by_cases hx16 : sp - 16 ≤ x ∧ x < sp - 16 + 8
      · exact write_cell_read_cell_apply _ m (sp - 16) x hx16
      · rw [write_cell_outside _ _ _ _ (by omega), write_cell_outside _ _ _ _ (by omega),
          write_cell_outside _ _ _ _ (by omega)]
  rw [hmem]

/-- C14, witness: the stack holding 1 below 2. -/
theorem swap_swap_witness :
    ∃ s1, quarter_swap (stackOf [1, 2]) = .ok s1 ∧ s1.sp = (stackOf [1, 2]).sp ∧
      read_cell s1.memory ((stackOf [1, 2]).sp - 16)
        = read_cell (stackOf [1, 2]).memory ((stackOf [1, 2]).sp - 8) ∧
      read_cell s1.memory ((stackOf [1, 2]).sp - 8)
        = read_cell (stackOf [1, 2]).memory ((stackOf [1, 2]).sp - 16) ∧
      quarter_swap s1 = .ok (stackOf [1, 2]) :=
  swap_swap (stackOf [1, 2]) (by decide) (by decide)

/-! ## C15: rot three times -/

/-- The memory after `rot` at pointer `sp`, given the three cells it leaves. -/
theorem rot_cells (m : Memory) (sp : Nat) (x y z : Int) (h24 : 24 ≤ sp)
    (hx : isCell x) (hy : isCell y) (hz : isCell z) :
    read_cell (write_cell (write_cell (write_cell m (sp - 24) x) (sp - 16) y) (sp - 8) z)
      (sp - 24) = x ∧
    read_cell (write_cell (write_cell (write_cell m (sp - 24) x) (sp - 16) y) (sp - 8) z)
      (sp - 16) = y ∧
    read_cell (write_cell (write_cell (write_cell m (sp - 24) x) (sp - 16) y) (sp - 8) z)
      (sp - 8) = z := by
  refine ⟨?_, ?_, ?_⟩
  · rw [read_cell_write_cell_disjoint _ _ _ _ (by omega),
      read_cell_write_cell_disjoint _ _ _ _ (by omega), read_cell_write_cell,
      wrap64_of_isCell x hx]
  · rw [read_cell_write_cell_disjoint _ _ _ _ (by omega), read_cell_write_cell,
      wrap64_of_isCell y hy]
  · rw [read_cell_write_cell, wrap64_of_isCell z hz]

/-- Writing three cells over three cells written before leaves only the last ones. -/
theorem write3_write3 (m : Memory) (sp : Nat) (x y z x1 y1 z1 : Int) :
    write_cell (write_cell (write_cell (write_cell (write_cell (write_cell m (sp - 24) x)
      (sp - 16) y) (sp - 8) z) (sp - 24) x1) (sp - 16) y1) (sp - 8) z1
    = write_cell (write_cell (write_cell m (sp - 24) x1) (sp - 16) y1) (sp - 8) z1 := by
  funext a
  unfold write_cell
  split_ifs <;> rfl

/-- Writing back the three cells read from a memory restores it. -/
theorem write3_read3 (m : Memory) (sp : Nat) (h24 : 24 ≤ sp) :
    write_cell (write_cell (write_cell m (sp - 24) (read_cell m (sp - 24)))
      (sp - 16) (read_cell m (sp - 16))) (sp - 8) (read_cell m (sp - 8)) = m := by
  funext x
  by_cases hx8 : sp - 8 ≤ x ∧ x < sp - 8 + 8
  · exact write_cell_read_cell_apply _ m (sp - 8) x hx8
  · rw [write_cell_outside _ _ _ _ (by omega)]
    by_cases hx16 : sp - 16 ≤ x ∧ x < sp - 16 + 8
    · exact write_cell_read_cell_apply _ m (sp - 16) x hx16
    · rw [write_cell_outside _ _ _ _ (by omega)]
      by_cases hx24 : sp - 24 ≤ x ∧ x < sp - 24 + 8
      · exact write_cell_read_cell_apply _ m (sp - 24) x hx24
      · rw [write_cell_outside _ _ _ _ (by omega)]

/-- C15: for every state whose data stack holds at least three cells `a`, `b`, `c`
(`c` on top), one rot does not fault and leaves `b`, `c`, `a` with the pointer
unchanged, and applying rot three times is the identity: the stack pointer and
every byte of memory are what they were before the first rot. -/
theorem rot_rot_rot (s : Machine) (h24 : 24 ≤ s.sp) (hw : s.sp < 2 ^ 64) :
    ∃ s1 s2, quarter_rot s = .ok s1 ∧ s1.sp = s.sp ∧
      read_cell s1.memory (s.sp - 24) = read_cell s.memory (s.sp - 16) ∧
      read_cell s1.memory (s.sp - 16) = read_cell s.memory (s.sp - 8) ∧
      read_cell s1.memory (s.sp - 8) = read_cell s.memory (s.sp - 24) ∧
      quarter_rot s1 = .ok s2 ∧ quarter_rot s2 = .ok s := by
  obtain ⟨m, sp, rp, out⟩ := s
  dsimp only at h24 hw ⊢
  have ca := isCell_read_cell m (sp - 24)
  have cb := isCell_read_cell m (sp - 16)
  have cc := isCell_read_cell m (sp - 8)
  obtain ⟨r1, r2, r3⟩ := rot_cells m sp (read_cell m (sp - 16)) (read_cell m (sp - 8))
    (read_cell m (sp - 24)) h24 cb cc ca
  obtain ⟨t1, t2, t3⟩ := rot_cells m sp (read_cell m (sp - 8)) (read_cell m (sp - 24))
    (read_cell m (sp - 16)) h24 cc ca cb
  refine ⟨⟨write_cell (write_cell (write_cell m (sp - 24) (read_cell m (sp - 16))) (sp - 16)
      (read_cell m (sp - 8))) (sp - 8) (read_cell m (sp - 24)), sp, rp, out⟩,
    ⟨write_cell (write_cell (write_cell m (sp - 24) (read_cell m (sp - 8))) (sp - 16)
      (read_cell m (sp - 24))) (sp - 8) (read_cell m (sp - 16)), sp, rp, out⟩,
    quarter_rot_ok ⟨m, sp, rp, out⟩ h24 hw, rfl, r1, r2, r3, ?_, ?_⟩
  · rw [quarter_rot_ok _ h24 hw]
    dsimp only
    rw [r1, r2, r3, write3_write3 m sp]
  · rw [quarter_rot_ok _ h24 hw]
    dsimp only
    rw [t1, t2, t3, write3_write3 m sp, write3_read3 m sp h24]

/-- C15, witness: the stack holding 1, 2, 3. -/
theorem rot_rot_rot_witness :
    ∃ s1 s2, quarter_rot (stackOf [1, 2, 3]) = .ok s1 ∧ quarter_rot s1 = .ok s2 ∧
      quarter_rot s2 = .ok (stackOf [1, 2, 3]) := by
  obtain ⟨s1, s2, h1, -, -, -, -, h2, h3⟩ :=
    rot_rot_rot (stackOf [1, 2, 3]) (by decide) (by decide)
  exact ⟨s1, s2, h1, h2, h3⟩

/-! ## C16: the return-stack pointer -/

theorem bind_ok {α : Type} (x : Except Fault α) (f : α → Except Fault Machine) (r : Machine)
    (h : (x >>= f) = .ok r) : ∃ a, x = .ok a ∧ f a = .ok r := by
  cases x with
  | error e => cases h
  | ok a => exact ⟨a, rfl, h⟩

theorem call_rp (p : Prim) (s s1 : Machine) (h : call p s = .ok s1) : s1.rp = s.rp := by
  cases p
  case dot | u_dot | emit | drop =>
    simp only [call] at h
    first
      | unfold quarter_dot at h
      | unfold quarter_u_dot at h
      | unfold quarter_emit at h
      | unfold quarter_drop at h
    obtain ⟨⟨v, sp1⟩, -, h⟩ := bind_ok _ _ _ h
    cases h
    rfl
  case key c =>
    simp only [call] at h
    unfold quarter_key at h
    cases h
    rfl
  case cr | space =>
    simp only [call] at h
    first
      | unfold quarter_cr at h
      | unfold quarter_space at h
    cases h
    rfl
  case dup | over =>
    simp only [call] at h
    first
      | unfold quarter_dup at h
      | unfold quarter_over at h
    obtain ⟨v, -, h⟩ := bind_ok _ _ _ h
    cases h
    rfl
  case swap | add | sub | mul | less_than | gt | equal =>
    simp only [call] at h
    first
      | unfold quarter_swap at h
      | unfold quarter_add at h
      | unfold quarter_sub at h
      | unfold quarter_mul at h
      | unfold quarter_less_than at h
      | unfold quarter_gt at h
      | unfold quarter_equal at h
    obtain ⟨⟨b, sp1⟩, -, h⟩ := bind_ok _ _ _ h
    obtain ⟨⟨a, sp2⟩, -, h⟩ := bind_ok _ _ _ h
    cases h
    rfl
  case rot =>
    simp only [call] at h
    unfold quarter_rot at h
    obtain ⟨⟨c, sp1⟩, -, h⟩ := bind_ok _ _ _ h
    obtain ⟨⟨b, sp2⟩, -, h⟩ := bind_ok _ _ _ h
    obtain ⟨⟨a, sp3⟩, -, h⟩ := bind_ok _ _ _ h
    cases h
    rfl
  case negate =>
    simp only [call] at h
    unfold quarter_negate at h
    obtain ⟨⟨v, sp1⟩, -, h⟩ := bind_ok _ _ _ h
    cases h
    rfl
  case div | store | c_store =>
    simp only [call] at h
    first
      | unfold quarter_div at h
      | unfold quarter_store at h
      | unfold quarter_c_store at h
    obtain ⟨⟨b, sp1⟩, -, h⟩ := bind_ok _ _ _ h
    obtain ⟨⟨a, sp2⟩, -, h⟩ := bind_ok _ _ _ h
    dsimp only at h
    split_ifs at h
    · cases h
    · cases h
      rfl
  case fetch | c_fetch =>
    simp only [call] at h
    first
      | unfold quarter_fetch at h
      | unfold quarter_c_fetch at h
    obtain ⟨⟨a, sp1⟩, -, h⟩ := bind_ok _ _ _ h
    dsimp only at h
    split_ifs at h
    · cases h
    · cases h
      rfl

theorem call_rp_blind (p : Prim) (s : Machine) (r : Nat) :
    call p { s with rp := r } = (call p s).map (fun t => { t with rp := r }) := by
  cases p
  case dot | u_dot | emit | drop | negate =>
    simp only [call]
    first
      | unfold quarter_dot
      | unfold quarter_u_dot
      | unfold quarter_emit
      | unfold quarter_drop
      | unfold quarter_negate
    dsimp only
    cases pop_cell s.memory s.sp with
    | error e => rfl
    | ok r1 => rfl
  case key c =>
    simp only [call]
    rfl
  case cr | space =>
    simp only [call]
    rfl
  case dup =>
    simp only [call]
    unfold quarter_dup
    dsimp only
    cases peek_cell s.memory s.sp 0 with
    | error e => rfl
    | ok v => rfl
  case over =>
    simp only [call]
    unfold quarter_over
    dsimp only
    cases peek_cell s.memory s.sp 1 with
    | error e => rfl
    | ok v => rfl
  case swap | add | sub | mul | less_than | gt | equal =>
    simp only [call]
    first
      | unfold quarter_swap
      | unfold quarter_add
      | unfold quarter_sub
      | unfold quarter_mul
      | unfold quarter_less_than
      | unfold quarter_gt
      | unfold quarter_equal
    dsimp only
    cases pop_cell s.memory s.sp with
    | error e => rfl
    | ok r1 =>
      obtain ⟨b, sp1⟩ := r1
      dsimp only [bind, Except.bind]
      cases pop_cell s.memory sp1 with
      | error e => rfl
      | ok r2 => rfl
  case rot =>
    simp only [call]
    unfold quarter_rot
    dsimp only
    cases pop_cell s.memory s.sp with
    | error e => rfl
    | ok r1 =>
      obtain ⟨c, sp1⟩ := r1
      dsimp only [bind, Except.bind]
      cases pop_cell s.memory sp1 with
      | error e => rfl
      | ok r2 =>
        obtain ⟨b, sp2⟩ := r2
        dsimp only
        cases pop_cell s.memory sp2 with
        | error e => rfl
        | ok r3 => rfl
  case div | store | c_store =>
    simp only [call]
    first
      | unfold quarter_div
      | unfold quarter_store
      | unfold quarter_c_store
    dsimp only
    cases pop_cell s.memory s.sp with
    | error e => rfl
    | ok r1 =>
      obtain ⟨b, sp1⟩ := r1
      dsimp only [bind, Except.bind]
      cases pop_cell s.memory sp1 with
      | error e => rfl
      | ok r2 =>
        obtain ⟨a, sp2⟩ := r2
        dsimp only
        split_ifs <;> rfl
  case fetch | c_fetch =>
    simp only [call]
    first
      | unfold quarter_fetch
      | unfold quarter_c_fetch
    dsimp only
    cases pop_cell s.memory s.sp with
    | error e => rfl
    | ok r1 =>
      obtain ⟨a, sp1⟩ := r1
      dsimp only [bind, Except.bind]
      split_ifs <;> rfl

/-- C16: for every one of the 23 primitives and every input state, a call that does
not fault leaves the return-stack pointer equal to its value before the call;
and no primitive reads it: run from a state that differs only in the
return-stack pointer, the call faults with the same error or succeeds with
the same state up to that pointer. -/
theorem rp_untouched (p : Prim) (s : Machine) (r : Nat) :
    (∀ s1, call p s = .ok s1 →
      s1.rp = s.rp ∧ call p { s with rp := r } = .ok { s1 with rp := r }) ∧
    (∀ e, call p s = .error e → call p { s with rp := r } = .error e) := by
  refine ⟨?_, ?_⟩
  · intro s1 h
    refine ⟨call_rp p s s1 h, ?_⟩
    rw [call_rp_blind p s r, h]
    rfl
  · intro e h
    rw [call_rp_blind p s r, h]
    rfl

/-- C16, witness: `drop` on the stack holding the single cell 5, seen with the
return-stack pointer moved to `0x010040`. -/
theorem rp_untouched_witness :
    ({ stackOf [5] with sp := (stackOf [5]).sp - 8 } : Machine).rp = (stackOf [5]).rp ∧
    call Prim.drop { stackOf [5] with rp := 0x010040 }
      = .ok { ({ stackOf [5] with sp := (stackOf [5]).sp - 8 } : Machine) with rp := 0x010040 } :=
  (rp_untouched Prim.drop (stackOf [5]) 0x010040).1
    { stackOf [5] with sp := (stackOf [5]).sp - 8 }
    (quarter_drop_ok (stackOf [5]) (by decide) (by decide))

/-! ## C17: push has no capacity check -/

/-- C17: `push` performs no capacity check. For every stack pointer `p` and value
`x` it cannot fault (`push_cell` has no error exit, the primitive `key`, which
is one push, always returns), it writes `x` at offset `p`, leaving all other
bytes, and sets the pointer to `p + 8` (`size_t` addition: `(p + 8) mod 2^64`,
which is `p + 8` whenever `p + 8 < 2^64`). In particular with the data stack
full, `p = STACK_BASE + STACK_SIZE = 0x010000`, push overwrites the cell at
`0x010000`, the first cell of the return stack, and leaves the pointer at
`0x010008`, past base + capacity. -/
theorem push_unchecked (memory : Memory) (p : Nat) (x : Int) (hp : p < 2 ^ 64)
    (hx : isCell x) :
    read_cell (push_cell memory p x).1 p = x ∧
    (∀ a, a < p ∨ p + 8 ≤ a → (push_cell memory p x).1 a = memory a) ∧
    (push_cell memory p x).2 = (p + 8) % 2 ^ 64 ∧
    (p + 8 < 2 ^ 64 → (push_cell memory p x).2 = p + 8) ∧
    (∀ s : Machine, s.memory = memory → s.sp = p →
      ∃ s1, quarter_key x s = .ok s1 ∧ s1.memory = (push_cell memory p x).1 ∧
        s1.sp = (push_cell memory p x).2) ∧
    (p = STACK_BASE + STACK_SIZE →
      p = RSTACK_BASE ∧ read_cell (push_cell memory p x).1 RSTACK_BASE = x ∧
      (push_cell memory p x).2 = 0x010008 ∧
      STACK_BASE + STACK_SIZE < (push_cell memory p x).2) := by
  have hr : read_cell (push_cell memory p x).1 p = x := by
    show read_cell (write_cell memory p x) p = x
    rw [read_cell_write_cell, wrap64_of_isCell x hx]
  refine ⟨hr, ?_, rfl, ?_, ?_, ?_⟩
  · intro a ha
    exact write_cell_outside memory p x a ha
  · intro h
    show (p + 8) % WORD = p + 8
    unfold WORD
    omega
  · intro s hm hs
    refine ⟨{ s with memory := (push_cell memory p x).1, sp := (push_cell memory p x).2 }, ?_,
      rfl, rfl⟩
    unfold quarter_key
    rw [hm, hs]
    rfl
  · intro h
    have hb : p = RSTACK_BASE := by
      rw [h]
      decide
    have e : (push_cell memory p x).2 = 0x010008 := by
      show (p + 8) % WORD = 0x010008
      rw [h]
      decide
    refine ⟨hb, ?_, e, ?_⟩
    · rw [← hb]
      exact hr
    · rw [e]
      decide

/-- C17, witness: pushing 99 with the data stack full. -/
theorem push_unchecked_witness :
    read_cell (push_cell zeroMemory 0x010000 99).1 RSTACK_BASE = 99 ∧
    (push_cell zeroMemory 0x010000 99).2 = 0x010008 ∧
    STACK_BASE + STACK_SIZE < (push_cell zeroMemory 0x010000 99).2 :=
  ((push_unchecked zeroMemory 0x010000 99 (by decide) (by decide)).2.2.2.2.2 (by decide)).2

/-! ## C18: what store and byte-store change -/

/-- C18: on a data stack of whole cells, a successful store of value `v` at address
`a` (the two cells it pops) changes memory only in the 8 bytes `[a, a+8)`, which
afterwards decode to `v`, and a successful byte-store changes only the byte at
offset `a`, which becomes `v mod 256`; every other byte is unchanged and the
data-stack pointer is exactly 16 less than before the call. -/
theorem store_frame (s s1 : Machine) (a v : Int) (hal : s.sp % 8 = 0) (hw : s.sp < 2 ^ 64)
    (hA : read_cell s.memory (s.sp - 8) = a) (hV : read_cell s.memory (s.sp - 16) = v) :
    (quarter_store s = .ok s1 →
      (∀ x, x < a.toNat ∨ a.toNat + 8 ≤ x → s1.memory x = s.memory x) ∧
      read_cell s1.memory a.toNat = v ∧ s1.sp + 16 = s.sp) ∧
    (quarter_c_store s = .ok s1 →
      (∀ x, x ≠ a.toNat → s1.memory x = s.memory x) ∧
      (read_byte s1.memory a.toNat : Int) = v % 256 ∧ s1.sp + 16 = s.sp) := by
  have hcv : isCell v := by
    rw [← hV]
    exact isCell_read_cell _ _
  refine ⟨?_, ?_⟩
  · intro h
    have h1 := h
    unfold quarter_store at h1
    obtain ⟨g1, h1⟩ := pop_bind _ _ _ _ hal hw h1
    obtain ⟨g2, -⟩ := pop_bind _ _ _ _ (by omega) (by omega) h1
    have h16 : 16 ≤ s.sp := by omega
    have hb : ¬ (read_cell s.memory (s.sp - 8) < 0
        ∨ read_cell s.memory (s.sp - 8) ≥ (MEMORY_SIZE : Int) - 8) := by
      intro hb
      rw [quarter_store_oob s h16 hw hb] at h
      cases h
    rw [quarter_store_ok s h16 hw hb, hA, hV] at h
    cases h
    refine ⟨?_, ?_, ?_⟩
    · intro x hx
      exact write_cell_outside _ _ _ _ hx
    · show read_cell (write_cell s.memory a.toNat v) a.toNat = v
      rw [read_cell_write_cell, wrap64_of_isCell v hcv]
    · show s.sp - 16 + 16 = s.sp
      omega
  · intro h
    have h1 := h
    unfold quarter_c_store at h1
    obtain ⟨g1, h1⟩ := pop_bind _ _ _ _ hal hw h1
    obtain ⟨g2, -⟩ := pop_bind _ _ _ _ (by omega) (by omega) h1
    have h16 : 16 ≤ s.sp := by omega
    have hb : ¬ (read_cell s.memory (s.sp - 8) < 0
        ∨ read_cell s.memory (s.sp - 8) ≥ (MEMORY_SIZE : Int)) := by
      intro hb
      rw [quarter_c_store_oob s h16 hw hb] at h
      cases h
    rw [quarter_c_store_ok s h16 hw hb, hA, hV] at h
    cases h
    refine ⟨?_, ?_, ?_⟩
    · intro x hx
      exact write_byte_other _ _ _ _ hx
    · show ((read_byte (write_byte s.memory a.toNat (toU64 v % 256)) a.toNat : Nat) : Int) = _
      rw [write_byte_same]
      unfold toU64
      omega
    · show s.sp - 16 + 16 = s.sp
      omega

/-- C18, witness: storing 42 at `0x100` and the byte of `-1` at `0x100`. -/
theorem store_frame_witness :
    (∃ s1, quarter_store (stackOf [42, 0x100]) = .ok s1 ∧ read_cell s1.memory 0x100 = 42 ∧
      s1.sp + 16 = (stackOf [42, 0x100]).sp) ∧
    (∃ s1, quarter_c_store (stackOf [-1, 0x100]) = .ok s1 ∧
      (read_byte s1.memory 0x100 : Int) = 255 ∧ s1.sp + 16 = (stackOf [-1, 0x100]).sp) := by
  constructor
  · have h := quarter_store_mk (stackOf [42, 0x100]).memory 16 RSTACK_BASE [] 0x100 42
      (by decide) (by decide) (by decide) (by decide) (by decide)
    obtain ⟨-, h2, h3⟩ := (store_frame (stackOf [42, 0x100]) _ 0x100 42 (by decide) (by decide)
      (by decide) (by decide)).1 h
    exact ⟨_, h, h2, h3⟩
  · have h := quarter_c_store_mk (stackOf [-1, 0x100]).memory 16 RSTACK_BASE [] 0x100 (-1)
      (by decide) (by decide) (by decide) (by decide) (by decide)
    obtain ⟨-, h2, h3⟩ := (store_frame (stackOf [-1, 0x100]) _ 0x100 (-1) (by decide) (by decide)
      (by decide) (by decide)).2 h
    exact ⟨_, h, h2, h3⟩

/-! ## C19: what the stack primitives leave alone -/

theorem peek_zero_bind (m : Memory) (sp : Nat) (f : Int → Except Fault Machine) (r : Machine)
    (ha : sp % 8 = 0) (h : (peek_cell m sp 0 >>= f) = .ok r) : 8 ≤ sp := by
  by_contra hlt
  have hz : sp = 0 := by omega
  subst hz
  rw [peek_cell_zero_underflow] at h
  cases h

theorem peek_one_bind (m : Memory) (sp : Nat) (f : Int → Except Fault Machine) (r : Machine)
    (ha : sp % 8 = 0) (h : (peek_cell m sp 1 >>= f) = .ok r) : 16 ≤ sp := by
  by_contra hlt
  have hc : sp ≤ (STACK_BASE + 1 * 8) % WORD := by
    unfold STACK_BASE WORD
    omega
  unfold peek_cell at h
  rw [if_pos hc] at h
  cases h

/-- The operands of a primitive that succeeded on a stack of whole cells were there. -/
theorem stack_prim_operands (p : Prim) (s s1 : Machine) (hp : isStackPrim p = true)
    (ha : s.sp % 8 = 0) (hw : s.sp < 2 ^ 64) (h : call p s = .ok s1) :
    8 * operands p ≤ s.sp := by
  cases p
  case dot | u_dot | emit | key | cr | space | fetch | store | c_fetch | c_store =>
    cases hp
  case dup =>
    simp only [call] at h
    unfold quarter_dup at h
    have := peek_zero_bind _ _ _ _ ha h
    simp only [operands]
    omega
  case over =>
    simp only [call] at h
    unfold quarter_over at h
    have := peek_one_bind _ _ _ _ ha h
    simp only [operands]
    omega
  case drop | negate =>
    simp only [call] at h
    first
      | unfold quarter_drop at h
      | unfold quarter_negate at h
    obtain ⟨g1, -⟩ := pop_bind _ _ _ _ ha hw h
    simp only [operands]
    omega
  case swap | add | sub | mul | div | less_than | gt | equal =>
    simp only [call] at h
    first
      | unfold quarter_swap at h
      | unfold quarter_add at h
      | unfold quarter_sub at h
      | unfold quarter_mul at h
      | unfold quarter_div at h
      | unfold quarter_less_than at h
      | unfold quarter_gt at h
      | unfold quarter_equal at h
    obtain ⟨g1, h⟩ := pop_bind _ _ _ _ ha hw h
    obtain ⟨g2, -⟩ := pop_bind _ _ _ _ (by omega) (by omega) h
    simp only [operands]
    omega
  case rot =>
    simp only [call] at h
    unfold quarter_rot at h
    obtain ⟨g1, h⟩ := pop_bind _ _ _ _ ha hw h
    obtain ⟨g2, h⟩ := pop_bind _ _ _ _ (by omega) (by omega) h
    obtain ⟨g3, -⟩ := pop_bind _ _ _ _ (by omega) (by omega) h
    simp only [operands]
    omega

/-- The bytes a stack primitive may change lie in the operand cells and the cell
just above them. -/
theorem stack_prim_memory (p : Prim) (s s1 : Machine) (hp : isStackPrim p = true)
    (ha : s.sp % 8 = 0) (hw : s.sp + 8 < 2 ^ 64) (h : call p s = .ok s1) (x : Nat)
    (hx : x < s.sp - 8 * operands p ∨ s.sp + 8 ≤ x) : s1.memory x = s.memory x := by
  have hk := stack_prim_operands p s s1 hp ha (by omega) h
  cases p
  case dot | u_dot | emit | key | cr | space | fetch | store | c_fetch | c_store =>
    cases hp
  case dup =>
    simp only [operands] at hk hx
    simp only [call] at h
    rw [quarter_dup_ok s (by omega) hw] at h
    cases h
    exact write_cell_outside _ _ _ _ (by omega)
  case over =>
    simp only [operands] at hk hx
    simp only [call] at h
    rw [quarter_over_ok s (by omega) hw] at h
    cases h
    exact write_cell_outside _ _ _ _ (by omega)
  case drop =>
    simp only [call] at h
    rw [quarter_drop_ok s (by simp only [operands] at hk; omega) (by omega)] at h
    cases h
    rfl
  case negate =>
    simp only [operands] at hk hx
    simp only [call] at h
    rw [quarter_negate_ok s (by omega) (by omega)] at h
    cases h
    exact write_cell_outside _ _ _ _ (by omega)
  case swap =>
    simp only [operands] at hk hx
    simp only [call] at h
    rw [quarter_swap_ok s (by omega) (by omega)] at h
    cases h
    show write_cell (write_cell _ _ _) _ _ x = _
    rw [write_cell_outside _ _ _ _ (by omega), write_cell_outside _ _ _ _ (by omega)]
  case rot =>
    simp only [operands] at hk hx
    simp only [call] at h
    rw [quarter_rot_ok s (by omega) (by omega)] at h
    cases h
    show write_cell (write_cell (write_cell _ _ _) _ _) _ _ x = _
    rw [write_cell_outside _ _ _ _ (by omega), write_cell_outside _ _ _ _ (by omega),
      write_cell_outside _ _ _ _ (by omega)]
  case add | sub | mul | less_than | gt | equal =>
    simp only [operands] at hk hx
    simp only [call] at h
    first
      | rw [quarter_add_ok s (by omega) (by omega)] at h
      | rw [quarter_sub_ok s (by omega) (by omega)] at h
      | rw [quarter_mul_ok s (by omega) (by omega)] at h
      | rw [quarter_less_than_ok s (by omega) (by omega)] at h
      | rw [quarter_gt_ok s (by omega) (by omega)] at h
      | rw [quarter_equal_ok s (by omega) (by omega)] at h
    cases h
    exact write_cell_outside _ _ _ _ (by omega)
  case div =>
    simp only [operands] at hk hx
    simp only [call] at h
    have hb : read_cell s.memory (s.sp - 8) ≠ 0 := by
      intro hb
      rw [quarter_div_zero s (by omega) (by omega) hb] at h
      cases h
    rw [quarter_div_ok s (by omega) (by omega) hb] at h
    cases h
    exact write_cell_outside _ _ _ _ (by omega)

/-- C19: for each stack-shuffling, arithmetic and comparison primitive (dup, drop,
swap, over, rot, add, sub, mul, div, negate, less-than, greater-than, equal)
that consumes `k` operands, a call that does not fault from a data-stack
pointer `s` (a stack of whole cells, one more cell fits below `2^64`) had its
`k` operands, leaves every memory byte at offsets below `s - 8k` unchanged,
writes no byte at offset `s + 8` or above, and changes the pointer by exactly
`8 * (results - k)`. -/
theorem stack_prim_frame (p : Prim) (s s1 : Machine) (hp : isStackPrim p = true)
    (ha : s.sp % 8 = 0) (hw : s.sp + 8 < 2 ^ 64) (h : call p s = .ok s1) :
    8 * operands p ≤ s.sp ∧
    (∀ x, x < s.sp - 8 * operands p → s1.memory x = s.memory x) ∧
    (∀ x, s.sp + 8 ≤ x → s1.memory x = s.memory x) ∧
    (s1.sp : Int) = (s.sp : Int) + 8 * effect p := by
  have hb := effect_bounds p
  have hs := call_sp p s s1 ha (by omega) h
  refine ⟨stack_prim_operands p s s1 hp ha (by omega) h, ?_, ?_, ?_⟩
  · intro x hx
    exact stack_prim_memory p s s1 hp ha hw h x (Or.inl hx)
  · intro x hx
    exact stack_prim_memory p s s1 hp ha hw h x (Or.inr hx)
  · omega

/-- C19, witness: `drop` on the stack holding 5 below 6. -/
theorem stack_prim_frame_witness :
    8 * operands Prim.drop ≤ (stackOf [5, 6]).sp ∧
    (∀ x, x < (stackOf [5, 6]).sp - 8 * operands Prim.drop →
      ({ stackOf [5, 6] with sp := (stackOf [5, 6]).sp - 8 } : Machine).memory x
        = (stackOf [5, 6]).memory x) ∧
    (∀ x, (stackOf [5, 6]).sp + 8 ≤ x →
      ({ stackOf [5, 6] with sp := (stackOf [5, 6]).sp - 8 } : Machine).memory x
        = (stackOf [5, 6]).memory x) ∧
    ((({ stackOf [5, 6] with sp := (stackOf [5, 6]).sp - 8 } : Machine).sp : Nat) : Int)
      = ((stackOf [5, 6]).sp : Int) + 8 * effect Prim.drop :=
  stack_prim_frame Prim.drop (stackOf [5, 6]) { stackOf [5, 6] with sp := (stackOf [5, 6]).sp - 8 }
    rfl (by decide) (by decide) (quarter_drop_ok (stackOf [5, 6]) (by decide) (by decide))

/-! ## C20: store reaches the stack area -/

/-- C20: store does not protect the stack regions. For every state whose data stack
holds at least one cell (and two more fit below `2^64`) and every 64-bit `v`,
the sequence push `v`; push 0; store succeeds, restores the pointer and leaves
the bottom data-stack cell (offset `STACK_BASE = 0`) equal to `v`; and from an
empty data stack push `v`; push 0; store; push 0; fetch ends with 0 on top,
which is not `v` whenever `v ≠ 0`. -/
theorem store_clobbers_stack (s0 : Machine) (v : Int) (hv : isCell v) :
    (8 ≤ s0.sp → s0.sp + 16 < 2 ^ 64 →
      ∃ s3, quarter_store (push 0 (push v s0)) = .ok s3 ∧ s3.sp = s0.sp ∧
        read_cell s3.memory STACK_BASE = v) ∧
    (s0.sp = STACK_BASE →
      ∃ s3 s5, quarter_store (push 0 (push v s0)) = .ok s3 ∧
        read_cell s3.memory STACK_BASE = v ∧
        quarter_fetch (push 0 s3) = .ok s5 ∧ s5.sp = STACK_BASE + 8 ∧
        read_cell s5.memory (s5.sp - 8) = 0 ∧
        (v ≠ 0 → read_cell s5.memory (s5.sp - 8) ≠ v)) := by
  obtain ⟨m, sp, rp, out⟩ := s0
  dsimp only
  have hz : ¬ ((0 : Int) < 0 ∨ (0 : Int) ≥ (MEMORY_SIZE : Int) - 8) := by decide
  have c0 : isCell 0 := by decide
  have w0 : wrap64 0 = 0 := by decide
  have store_ok : ∀ p : Nat, p + 16 < 2 ^ 64 →
      quarter_store (push 0 (push v ⟨m, p, rp, out⟩))
        = .ok ⟨write_cell (write_cell (write_cell m p v) (p + 8) 0) (0 : Int).toNat v,
            p + 8 + 8 - 16, rp, out⟩ := by
    intro p hp
    have e1 : p + 8 + 8 - 8 = p + 8 := by omega
    have e2 : p + 8 + 8 - 16 = p := by omega
    rw [push_mk v m p rp out (by omega), push_mk 0 _ (p + 8) rp out (by omega)]
    refine quarter_store_mk _ (p + 8 + 8) rp out 0 v (by omega) (by omega) ?_ ?_ hz
    · rw [e1, read_cell_write_cell, w0]
    · rw [e2, read_cell_write_cell_disjoint _ _ _ _ (Or.inl (le_refl _)), read_cell_write_cell,
        wrap64_of_isCell v hv]
  have bottom : ∀ p : Nat,
      read_cell (write_cell (write_cell (write_cell m p v) (p + 8) 0) (0 : Int).toNat v)
        STACK_BASE = v := by
    intro p
    show read_cell (write_cell _ 0 v) 0 = v
    rw [read_cell_write_cell, wrap64_of_isCell v hv]
  refine ⟨?_, ?_⟩
  · intro h8 hs
    refine ⟨_, store_ok sp hs, ?_, bottom sp⟩
    show sp + 8 + 8 - 16 = sp
    omega
  · intro hsp
    unfold STACK_BASE at hsp
    subst hsp
    have hA : read_cell (write_cell (write_cell (write_cell (write_cell m 0 v) (0 + 8) 0)
        (0 : Int).toNat v) 0 0) (0 + 8 - 8) = 0 := by
      show read_cell (write_cell _ 0 0) 0 = 0
      rw [read_cell_write_cell, w0]
    have hF : quarter_fetch (push 0 ⟨write_cell (write_cell (write_cell m 0 v) (0 + 8) 0)
        (0 : Int).toNat v, 0 + 8 + 8 - 16, rp, out⟩)
        = .ok ⟨write_cell (write_cell (write_cell (write_cell (write_cell m 0 v) (0 + 8) 0)
            (0 : Int).toNat v) 0 0) (0 + 8 - 8)
            (read_cell (write_cell (write_cell (write_cell (write_cell m 0 v) (0 + 8) 0)
              (0 : Int).toNat v) 0 0) (0 : Int).toNat), 0 + 8, rp, out⟩ := by
      have e : 0 + 8 + 8 - 16 = 0 := by omega
      rw [e, push_mk 0 _ 0 rp out (by omega)]
      exact quarter_fetch_mk _ (0 + 8) rp out 0 (by omega) (by omega) hA hz
    have htop : read_cell (write_cell (write_cell (write_cell (write_cell (write_cell m 0 v)
        (0 + 8) 0) (0 : Int).toNat v) 0 0) (0 + 8 - 8)
        (read_cell (write_cell (write_cell (write_cell (write_cell m 0 v) (0 + 8) 0)
          (0 : Int).toNat v) 0 0) (0 : Int).toNat)) (0 + 8 - 8) = 0 := by
      show read_cell (write_cell _ 0 (read_cell (write_cell _ 0 0) 0)) 0 = 0
      rw [read_cell_write_cell, read_cell_write_cell, w0, w0]
    refine ⟨_, _, store_ok 0 (by omega), bottom 0, hF, rfl, htop, ?_⟩
    intro hne
    show read_cell (write_cell _ (0 + 8 - 8) _) (0 + 8 - 8) ≠ v
    rw [htop]
    exact fun h => hne h.symm

/-- C20, witness: `v = 42` over the one-cell stack holding 5, and from the empty stack. -/
theorem store_clobbers_stack_witness :
    (∃ s3, quarter_store (push 0 (push 42 (stackOf [5]))) = .ok s3 ∧ s3.sp = (stackOf [5]).sp ∧
      read_cell s3.memory STACK_BASE = 42 ∧ read_cell (stackOf [5]).memory STACK_BASE = 5) ∧
    (∃ s3 s5, quarter_store (push 0 (push 42 (stackOf []))) = .ok s3 ∧
      quarter_fetch (push 0 s3) = .ok s5 ∧ read_cell s5.memory (s5.sp - 8) = 0) := by
  constructor
  · obtain ⟨s3, h1, h2, h3⟩ :=
      (store_clobbers_stack (stackOf [5]) 42 (by decide)).1 (by decide) (by decide)
    exact ⟨s3, h1, h2, h3, by decide⟩
  · obtain ⟨s3, s5, h1, -, h3, -, h5, -⟩ :=
      (store_clobbers_stack (stackOf []) 42 (by decide)).2 rfl
    exact ⟨s3, s5, h1, h3, h5⟩

end Quarter
